import Mathlib

/-!
# Verification of the claudex chat-streaming and scheduler backend

Shallow embedding of the Python sources under `backend/app` (recurrence
engine, scheduler service, execution dedupe, queue service, queue injector,
stream orchestrator) together with proofs of the spec's claims about them.

Conventions:
* Python `datetime.datetime` values (always UTC-aware here) are embedded as
  `PyDateTime`; comparison of datetimes is embedded as comparison of the
  injective order key `PyDateTime.key`, which agrees with chronological
  order on every datetime the `datetime` constructor accepts.
* Fallible Python code is embedded in the `Except PyError` monad; the
  `datetime` constructor itself is embedded as the checked `pyDatetime`.
* Machine floats never undergo arithmetic in the modelled code paths, so
  cost values are carried as opaque rationals.
-/

namespace Claudex

/-- Python exception classes raised by the embedded code paths. -/
inductive PyError where
  | valueError (msg : String)
  | schedulerException (msg : String)
  | indexError
  deriving DecidableEq, Repr

/-- A Python `datetime.datetime` with `tzinfo=timezone.utc`, split into its
constructor fields.  Values produced by the Python constructor always satisfy
`PyDateTime.Valid`. -/
structure PyDateTime where
  year : Int
  month : Nat
  day : Nat
  hour : Nat
  minute : Nat
  second : Nat
  deriving DecidableEq, Repr

/-- A Python `datetime.date`. -/
structure PyDate where
  year : Int
  month : Nat
  day : Nat
  deriving DecidableEq, Repr

/-- Leap-year rule used by Python's `calendar` module (proleptic Gregorian). -/
def isLeapYear (y : Int) : Bool :=
  y % 4 == 0 && (y % 100 != 0 || y % 400 == 0)

/-- `calendar.monthrange(y, m)[1]`: the number of days of month `m` of year
`y`.  Months outside `1..12` (which would raise in Python) are mapped to `0`;
the embedded code never reaches them. -/
def daysInMonth (y : Int) (m : Nat) : Nat :=
  if m = 1 ∨ m = 3 ∨ m = 5 ∨ m = 7 ∨ m = 8 ∨ m = 10 ∨ m = 12 then 31
  else if m = 4 ∨ m = 6 ∨ m = 9 ∨ m = 11 then 30
  else if m = 2 then (if isLeapYear y then 29 else 28)
  else 0

/-- Field ranges accepted by the Python `date`/`datetime` constructor. -/
def PyDate.Bounded (d : PyDate) : Prop :=
  d.month ≤ 12 ∧ d.day ≤ 31

/-- Field validity of a Python datetime (what the constructor enforces). -/
def PyDateTime.Valid (t : PyDateTime) : Prop :=
  1 ≤ t.month ∧ t.month ≤ 12 ∧ 1 ≤ t.day ∧ t.day ≤ daysInMonth t.year t.month ∧
    t.hour < 24 ∧ t.minute < 60 ∧ t.second < 60

instance (t : PyDateTime) : Decidable t.Valid := by
  unfold PyDateTime.Valid; infer_instance

/-- Injective, order-preserving key of a calendar date (for dates with
`month ≤ 12` and `day ≤ 31`, so for every Python-constructible date). -/
def dateKey (y : Int) (m d : Nat) : Int :=
  (y * 13 + m) * 32 + d

/-- Order key of a datetime: seconds-like linearization of its fields.  On
constructor-valid datetimes, `key` order coincides with the chronological
order that Python's datetime comparison operators implement. -/
def PyDateTime.key (t : PyDateTime) : Int :=
  dateKey t.year t.month t.day * 86400 +
    (t.hour * 3600 + t.minute * 60 + t.second : Nat)

/-- Embedding of Python `<` on UTC datetimes. -/
def PyDateTime.pyLT (a b : PyDateTime) : Prop := a.key < b.key

/-- Embedding of Python `<=` on UTC datetimes. -/
def PyDateTime.pyLE (a b : PyDateTime) : Prop := a.key ≤ b.key

instance (a b : PyDateTime) : Decidable (a.pyLT b) := by
  unfold PyDateTime.pyLT; infer_instance

instance (a b : PyDateTime) : Decidable (a.pyLE b) := by
  unfold PyDateTime.pyLE; infer_instance

/-- The checked `datetime.datetime(y, m, d, h, mi, s, tzinfo=timezone.utc)`
constructor: raises `ValueError` outside the valid field ranges. -/
def pyDatetime (y : Int) (m d h mi s : Nat) : Except PyError PyDateTime :=
  let t : PyDateTime := ⟨y, m, d, h, mi, s⟩
  if t.Valid then .ok t else .error (.valueError "invalid datetime fields")

/-- `date()` component of a datetime. -/
def PyDateTime.date (t : PyDateTime) : PyDate := ⟨t.year, t.month, t.day⟩

/-- Python `date + timedelta(days=1)`: calendar successor of a date. -/
def PyDate.next (d : PyDate) : PyDate :=
  if d.day < daysInMonth d.year d.month then ⟨d.year, d.month, d.day + 1⟩
  else if d.month < 12 then ⟨d.year, d.month + 1, 1⟩
  else ⟨d.year + 1, 1, 1⟩

/-- Python `date + timedelta(days=n)` for `n ≥ 0`. -/
def PyDate.addDays (d : PyDate) : Nat → PyDate
  | 0 => d
  | n + 1 => (d.addDays n).next

/-- Days since 1970-01-01 of a civil date (Hinnant's `days_from_civil`),
used only to embed Python's `date.weekday`. -/
def daysFromCivil (y : Int) (m d : Nat) : Int :=
  let y' : Int := if m ≤ 2 then y - 1 else y
  let era : Int := Int.fdiv y' 400
  let yoe : Int := y' - era * 400
  let mp : Nat := if 2 < m then m - 3 else m + 9
  let doy : Int := ((153 * mp + 2) / 5 + d - 1 : Nat)
  let doe : Int := yoe * 365 + Int.fdiv yoe 4 - Int.fdiv yoe 100 + doy
  era * 146097 + doe - 719468

/-- Python `date.weekday()`: Monday = 0 .. Sunday = 6
(1970-01-01 was a Thursday, weekday 3). -/
def PyDate.weekday (d : PyDate) : Int :=
  (daysFromCivil d.year d.month d.day + 3) % 7

/-- Digit-string parse of one `scheduled_time` component, embedding Python's
`int(part)` on the `"H"`, `"M"`, `"S"` substrings (all-digit contents;
anything else raises `ValueError`, as `int` does on such inputs). -/
def parseNatDigits (cs : List Char) : Except PyError Nat :=
  match cs with
  | [] => .error (.valueError "invalid literal for int")
  | _ => go cs 0
where
  go : List Char → Nat → Except PyError Nat
    | [], acc => .ok acc
    | c :: rest, acc =>
      if c.isDigit then go rest (acc * 10 + (c.toNat - '0'.toNat))
      else .error (.valueError "invalid literal for int")

/-- `str.split(":")` on the character list of a string. -/
def splitOnColon : List Char → List (List Char)
  | [] => [[]]
  | c :: rest =>
    if c = ':' then [] :: splitOnColon rest
    else match splitOnColon rest with
      | [] => [[c]]
      | p :: ps => (c :: p) :: ps

/-- The `scheduled_time` parse at the top of `calculate_next_datetime`:
`time_parts = scheduled_time.split(":")`, `hour = int(time_parts[0])`,
`minute = int(time_parts[1])`,
`second = int(time_parts[2]) if len(time_parts) == 3 else 0`.
A missing index raises `IndexError` (after the preceding `int` calls). -/
def parseScheduledTime (s : String) : Except PyError (Nat × Nat × Nat) :=
  match splitOnColon s.data with
  | [] => .error .indexError
  | [p0] => do
    let _ ← parseNatDigits p0
    .error .indexError
  | [p0, p1] => do
    let h ← parseNatDigits p0
    let m ← parseNatDigits p1
    pure (h, m, 0)
  | [p0, p1, p2] => do
    let h ← parseNatDigits p0
    let m ← parseNatDigits p1
    let sec ← parseNatDigits p2
    pure (h, m, sec)
  | p0 :: p1 :: _ :: _ :: _ => do
    let h ← parseNatDigits p0
    let m ← parseNatDigits p1
    pure (h, m, 0)

/-- `RecurrenceType` enum of `app/models/db_models.py`. -/
inductive RecurrenceType where
  | once
  | daily
  | weekly
  | monthly
  deriving DecidableEq, Repr

/-- `_calculate_daily_execution` of
`app/services/scheduler/recurrence.py`: today at H:M:S if strictly after
`from_time`, else tomorrow at H:M:S. -/
def calculateDailyExecution (fromTime : PyDateTime) (hour minute second : Nat) :
    Except PyError PyDateTime := do
  let nextDate : PyDate := fromTime.date
  let nextDt ← pyDatetime nextDate.year nextDate.month nextDate.day hour minute second
  if nextDt.pyLE fromTime then
    let nd := nextDate.next
    pyDatetime nd.year nd.month nd.day hour minute second
  else
    pure nextDt

/-- `(year, month)` advance of the MONTHLY branch: one month later, December
wrapping to January of the next year. -/
def nextYearMonth (y : Int) (m : Nat) : Int × Nat :=
  if m = 12 then (y + 1, 1) else (y, m + 1)

/-- The `WEEKLY` branch of `calculate_next_datetime` (lines 62-96 of
`recurrence.py`): `days_ahead = (scheduled_day - weekday) % 7`, bumped to `7`
when the target is today but `H:M:S` has already passed. -/
def weeklyBranch (scheduledDay : Option Int) (fromTime : PyDateTime)
    (hour minute second : Nat) : Except PyError PyDateTime :=
  match scheduledDay with
  | none => .error (.schedulerException "Weekly tasks require scheduled_day (0-6)")
  | some sd =>
    if sd < 0 ∨ 6 < sd then
      .error (.schedulerException "Weekly tasks require scheduled_day (0-6)")
    else
      let currentDate := fromTime.date
      let currentWeekday := currentDate.weekday
      let daysAhead : Int := (sd - currentWeekday) % 7
      if daysAhead = 0 then do
        let testDt ← pyDatetime currentDate.year currentDate.month currentDate.day
          hour minute second
        let daysAhead' : Nat := if testDt.pyLE fromTime then 7 else 0
        let nd := currentDate.addDays daysAhead'
        pyDatetime nd.year nd.month nd.day hour minute second
      else
        let nd := currentDate.addDays daysAhead.toNat
        pyDatetime nd.year nd.month nd.day hour minute second

/-- The `MONTHLY` branch of `calculate_next_datetime` (lines 98-124 of
`recurrence.py`): clamp `scheduled_day` to the month length, advance one
month (December wrapping) when the candidate is not strictly in the future,
and re-clamp. -/
def monthlyBranch (scheduledDay : Option Int) (fromTime : PyDateTime)
    (hour minute second : Nat) : Except PyError PyDateTime :=
  match scheduledDay with
  | none => .error (.schedulerException "Monthly tasks require scheduled_day (1-31)")
  | some sd =>
    if sd < 1 ∨ 31 < sd then
      .error (.schedulerException "Monthly tasks require scheduled_day (1-31)")
    else do
      let year := fromTime.year
      let month := fromTime.month
      let maxDay := daysInMonth year month
      let day := min sd.toNat maxDay
      let testDt ← pyDatetime year month day hour minute second
      if testDt.pyLE fromTime then
        let ym := nextYearMonth year month
        let maxDay' := daysInMonth ym.1 ym.2
        let day' := min sd.toNat maxDay'
        pyDatetime ym.1 ym.2 day' hour minute second
      else
        pure testDt

/-- `calculate_next_datetime` of `app/services/scheduler/recurrence.py`.
Returns `.ok none` exactly on the `ONCE`-without-`allow_once` early return;
domain errors raise `SchedulerException`, malformed time fields raise
`ValueError`/`IndexError`. -/
def calculateNextDatetime (recurrenceType : RecurrenceType) (scheduledTime : String)
    (scheduledDay : Option Int) (fromTime : PyDateTime) (allowOnce : Bool := false) :
    Except PyError (Option PyDateTime) := do
  let (hour, minute, second) ← parseScheduledTime scheduledTime
  match recurrenceType with
  | .once =>
    if !allowOnce then
      pure none
    else do
      let dt ← calculateDailyExecution fromTime hour minute second
      pure (some dt)
  | .daily => do
    let dt ← calculateDailyExecution fromTime hour minute second
    pure (some dt)
  | .weekly => do
    let dt ← weeklyBranch scheduledDay fromTime hour minute second
    pure (some dt)
  | .monthly => do
    let dt ← monthlyBranch scheduledDay fromTime hour minute second
    pure (some dt)

/-- Date-only order key. -/
def PyDate.dkey (d : PyDate) : Int := dateKey d.year d.month d.day

lemma daysInMonth_le_31 (y : Int) (m : Nat) : daysInMonth y m ≤ 31 := by
  unfold daysInMonth
  repeat' split
  all_goals omega

lemma daysInMonth_pos (y : Int) (m : Nat) (h1 : 1 ≤ m) (h2 : m ≤ 12) :
    1 ≤ daysInMonth y m := by
  unfold daysInMonth
  repeat' split
  all_goals omega

lemma PyDate.next_bounded {d : PyDate} (h : d.Bounded) : d.next.Bounded := by
  obtain ⟨hm, hd⟩ := h
  unfold PyDate.next PyDate.Bounded
  have h31 := daysInMonth_le_31 d.year d.month
  repeat' split
  all_goals simp
  all_goals omega

lemma PyDate.dkey_lt_next {d : PyDate} (h : d.Bounded) : d.dkey < d.next.dkey := by
  obtain ⟨hm, hd⟩ := h
  unfold PyDate.next PyDate.dkey dateKey
  repeat' split
  all_goals simp
  all_goals omega

lemma PyDate.addDays_bounded_dkey {d : PyDate} (h : d.Bounded) (n : Nat) :
    (d.addDays n).Bounded ∧ d.dkey + n ≤ (d.addDays n).dkey := by
  induction n with
  | zero => simpa [PyDate.addDays] using h
  | succ k ih =>
    obtain ⟨hb, hk⟩ := ih
    have hlt := PyDate.dkey_lt_next hb
    exact ⟨PyDate.next_bounded hb, by simp only [PyDate.addDays]; omega⟩

lemma pyDatetime_ok {y : Int} {m d h mi s : Nat} {t : PyDateTime}
    (heq : pyDatetime y m d h mi s = .ok t) :
    t = ⟨y, m, d, h, mi, s⟩ ∧ PyDateTime.Valid ⟨y, m, d, h, mi, s⟩ := by
  unfold pyDatetime at heq
  dsimp only at heq
  split at heq
  · exact ⟨(Except.ok.injEq _ _ ▸ heq).symm, by assumption⟩
  · exact absurd heq (by simp)

/-- Time-of-day seconds of a valid datetime are below one day. -/
lemma PyDateTime.time_lt_day {t : PyDateTime} (h : t.Valid) :
    t.hour * 3600 + t.minute * 60 + t.second < 86400 := by
  obtain ⟨-, -, -, -, hh, hm, hs⟩ := h
  omega

/-- A valid datetime has a bounded date. -/
lemma PyDateTime.date_bounded {t : PyDateTime} (h : t.Valid) : t.date.Bounded := by
  obtain ⟨-, hm, -, hd, -⟩ := h
  exact ⟨hm, le_trans hd (daysInMonth_le_31 _ _)⟩

/-- Strict comparison of datetimes follows from strict comparison of their
date keys, when the earlier time-of-day is in range.  Stated with the later
datetime as a structure literal so that applying it never forces reduction of
the (symbolic) date arithmetic inside its fields. -/
lemma key_lt_mk {a : PyDateTime} {y : Int} {m d hh mi s : Nat}
    (hda : a.hour * 3600 + a.minute * 60 + a.second < 86400)
    (hdk : dateKey a.year a.month a.day < dateKey y m d) :
    a.key < PyDateTime.key ⟨y, m, d, hh, mi, s⟩ := by
  unfold PyDateTime.key
  dsimp only
  omega

lemma except_bind_ok {α β ε : Type} (a : α) (f : α → Except ε β) :
    (Except.ok a >>= f) = f a := rfl

lemma except_bind_err {α β ε : Type} (e : ε) (f : α → Except ε β) :
    ((Except.error e : Except ε α) >>= f) = Except.error e := rfl

lemma except_pure_eq_ok {α ε : Type} (a : α) : (pure a : Except ε α) = Except.ok a := rfl

/-- `_calculate_daily_execution` always lands strictly after `from_time`. -/
lemma calculateDailyExecution_gt {ft : PyDateTime} {h mi s : Nat} {dt : PyDateTime}
    (hv : ft.Valid) (heq : calculateDailyExecution ft h mi s = .ok dt) :
    ft.key < dt.key := by
  unfold calculateDailyExecution at heq
  dsimp only at heq
  cases hc1 : pyDatetime ft.date.year ft.date.month ft.date.day h mi s with
  | error e => rw [hc1, except_bind_err] at heq; exact absurd heq (by simp)
  | ok nextDt =>
    rw [hc1, except_bind_ok] at heq
    try dsimp only at heq
    obtain ⟨hdef, hval⟩ := pyDatetime_ok hc1
    split at heq
    · rename_i hle
      cases hc2 : pyDatetime ft.date.next.year ft.date.next.month ft.date.next.day h mi s with
      | error e => rw [hc2] at heq; exact absurd heq (by simp)
      | ok dt2 =>
        rw [hc2] at heq
        obtain ⟨hdef2, hval2⟩ := pyDatetime_ok hc2
        have hdt : dt = dt2 := by simpa using heq.symm
        subst hdt hdef2
        have hbd : ft.date.Bounded := PyDateTime.date_bounded hv
        have hdk := PyDate.dkey_lt_next hbd
        have e1 : ft.date.year = ft.year := rfl
        have e2 : ft.date.month = ft.month := rfl
        have e3 : ft.date.day = ft.day := rfl
        unfold PyDate.dkey at hdk
        rw [e1, e2, e3] at hdk
        exact key_lt_mk (PyDateTime.time_lt_day hv) hdk
    · rename_i hgt
      have hdt : dt = nextDt := by
        rw [except_pure_eq_ok] at heq
        simpa using heq.symm
      subst hdt
      simp only [PyDateTime.pyLE, not_le] at hgt
      exact hgt

/-- The WEEKLY branch always lands strictly after `from_time`. -/
lemma weeklyBranch_gt {sd : Option Int} {ft : PyDateTime} {h mi s : Nat}
    {dt : PyDateTime} (hv : ft.Valid) (heq : weeklyBranch sd ft h mi s = .ok dt) :
    ft.key < dt.key := by
  unfold weeklyBranch at heq
  cases sd with
  | none => exact absurd heq (by simp)
  | some sdv =>
    dsimp only at heq
    split at heq
    · exact absurd heq (by simp)
    · split at heq
      · -- days_ahead = 0
        cases hc : pyDatetime ft.date.year ft.date.month ft.date.day h mi s with
        | error e => rw [hc, except_bind_err] at heq; exact absurd heq (by simp)
        | ok testDt =>
          rw [hc, except_bind_ok] at heq
          try dsimp only at heq
          obtain ⟨hdef, hval⟩ := pyDatetime_ok hc
          by_cases hle : testDt.pyLE ft
          · rw [if_pos hle] at heq
            cases hc2 : pyDatetime (ft.date.addDays 7).year (ft.date.addDays 7).month
                (ft.date.addDays 7).day h mi s with
            | error e => rw [hc2] at heq; exact absurd heq (by simp)
            | ok dt2 =>
              rw [hc2] at heq
              obtain ⟨hdef2, hval2⟩ := pyDatetime_ok hc2
              have hdt : dt = dt2 := by simpa using heq.symm
              subst hdt; subst hdef2
              have hbd : ft.date.Bounded := PyDateTime.date_bounded hv
              obtain ⟨hb7, hk7⟩ := PyDate.addDays_bounded_dkey hbd 7
              have e1 : ft.date.year = ft.year := rfl
              have e2 : ft.date.month = ft.month := rfl
              have e3 : ft.date.day = ft.day := rfl
              unfold PyDate.dkey at hk7
              rw [e1, e2, e3] at hk7
              have hdk : dateKey ft.year ft.month ft.day <
                  dateKey (ft.date.addDays 7).year (ft.date.addDays 7).month
                    (ft.date.addDays 7).day := by omega
              exact key_lt_mk (PyDateTime.time_lt_day hv) hdk
          · rw [if_neg hle] at heq
            cases hc2 : pyDatetime (ft.date.addDays 0).year (ft.date.addDays 0).month
                (ft.date.addDays 0).day h mi s with
            | error e => rw [hc2] at heq; exact absurd heq (by simp)
            | ok dt2 =>
              rw [hc2] at heq
              obtain ⟨hdef2, hval2⟩ := pyDatetime_ok hc2
              have hdt : dt = dt2 := by simpa using heq.symm
              subst hdt; subst hdef2; subst hdef
              simp only [PyDateTime.pyLE, not_le] at hle
              simpa [PyDate.addDays] using hle
      · -- days_ahead ≠ 0
        rename_i hne
        cases hc2 : pyDatetime
            (ft.date.addDays ((sdv - ft.date.weekday) % 7).toNat).year
            (ft.date.addDays ((sdv - ft.date.weekday) % 7).toNat).month
            (ft.date.addDays ((sdv - ft.date.weekday) % 7).toNat).day h mi s with
        | error e => rw [hc2] at heq; exact absurd heq (by simp)
        | ok dt2 =>
          rw [hc2] at heq
          obtain ⟨hdef2, hval2⟩ := pyDatetime_ok hc2
          have hdt : dt = dt2 := by simpa using heq.symm
          subst hdt; subst hdef2
          have hnn : 0 ≤ (sdv - ft.date.weekday) % 7 :=
            Int.emod_nonneg _ (by norm_num)
          have hpos : 1 ≤ ((sdv - ft.date.weekday) % 7).toNat := by omega
          have hbd : ft.date.Bounded := PyDateTime.date_bounded hv
          obtain ⟨hbn, hkn⟩ :=
            PyDate.addDays_bounded_dkey hbd ((sdv - ft.date.weekday) % 7).toNat
          have e1 : ft.date.year = ft.year := rfl
          have e2 : ft.date.month = ft.month := rfl
          have e3 : ft.date.day = ft.day := rfl
          unfold PyDate.dkey at hkn
          rw [e1, e2, e3] at hkn
          have hdk : dateKey ft.year ft.month ft.day <
              dateKey (ft.date.addDays ((sdv - ft.date.weekday) % 7).toNat).year
                (ft.date.addDays ((sdv - ft.date.weekday) % 7).toNat).month
                (ft.date.addDays ((sdv - ft.date.weekday) % 7).toNat).day := by
            omega
          exact key_lt_mk (PyDateTime.time_lt_day hv) hdk

lemma nextYearMonth_cases (y : Int) (m : Nat) :
    (m = 12 ∧ nextYearMonth y m = (y + 1, 1)) ∨
      (m ≠ 12 ∧ nextYearMonth y m = (y, m + 1)) := by
  unfold nextYearMonth
  split <;> simp_all

/-- The MONTHLY branch always lands strictly after `from_time`. -/
lemma monthlyBranch_gt {sd : Option Int} {ft : PyDateTime} {h mi s : Nat}
    {dt : PyDateTime} (hv : ft.Valid) (heq : monthlyBranch sd ft h mi s = .ok dt) :
    ft.key < dt.key := by
  unfold monthlyBranch at heq
  cases sd with
  | none => exact absurd heq (by simp)
  | some sdv =>
    dsimp only at heq
    split at heq
    · exact absurd heq (by simp)
    · rename_i hrange
      cases hc : pyDatetime ft.year ft.month
          (min sdv.toNat (daysInMonth ft.year ft.month)) h mi s with
      | error e => rw [hc, except_bind_err] at heq; exact absurd heq (by simp)
      | ok testDt =>
        rw [hc, except_bind_ok] at heq
        try dsimp only at heq
        obtain ⟨hdef, hval⟩ := pyDatetime_ok hc
        split at heq
        · rename_i hle
          cases hc2 : pyDatetime (nextYearMonth ft.year ft.month).1
              (nextYearMonth ft.year ft.month).2
              (min sdv.toNat
                (daysInMonth (nextYearMonth ft.year ft.month).1
                  (nextYearMonth ft.year ft.month).2)) h mi s with
          | error e => rw [hc2] at heq; exact absurd heq (by simp)
          | ok dt2 =>
            rw [hc2] at heq
            obtain ⟨hdef2, hval2⟩ := pyDatetime_ok hc2
            have hdt : dt = dt2 := by simpa using heq.symm
            subst hdt; subst hdef2
            have htlt := PyDateTime.time_lt_day hv
            obtain ⟨hm1, hm12, hd1, hdmax, -⟩ := hv
            have hday31 : ft.day ≤ 31 := le_trans hdmax (daysInMonth_le_31 _ _)
            have hday2 : 1 ≤ min sdv.toNat
                (daysInMonth (nextYearMonth ft.year ft.month).1
                  (nextYearMonth ft.year ft.month).2) := hval2.2.2.1
            have hdk : dateKey ft.year ft.month ft.day <
                dateKey (nextYearMonth ft.year ft.month).1
                  (nextYearMonth ft.year ft.month).2
                  (min sdv.toNat
                    (daysInMonth (nextYearMonth ft.year ft.month).1
                      (nextYearMonth ft.year ft.month).2)) := by
              rcases nextYearMonth_cases ft.year ft.month with ⟨hm, he⟩ | ⟨hm, he⟩ <;>
                rw [he] at hday2 ⊢ <;> dsimp only at hday2 ⊢ <;>
                unfold dateKey <;> omega
            exact key_lt_mk htlt hdk
        · rename_i hgt
          have hdt : dt = testDt := by
            rw [except_pure_eq_ok] at heq
            simpa using heq.symm
          subst hdt
          simp only [PyDateTime.pyLE, not_le] at hgt
          exact hgt

/-- **C3 core**: whenever `calculate_next_datetime` returns a timestamp, that
timestamp is strictly after the (constructor-valid) reference time. -/
lemma calculateNextDatetime_gt {rt : RecurrenceType} {st : String} {sd : Option Int}
    {ft : PyDateTime} {allow : Bool} {dt : PyDateTime} (hv : ft.Valid)
    (h : calculateNextDatetime rt st sd ft allow = .ok (some dt)) :
    ft.pyLT dt := by
  unfold calculateNextDatetime at h
  cases hp : parseScheduledTime st with
  | error e => rw [hp, except_bind_err] at h; exact absurd h (by simp)
  | ok v =>
    obtain ⟨hh, hmi, hs⟩ := v
    rw [hp, except_bind_ok] at h
    dsimp only at h
    show ft.key < dt.key
    cases rt with
    | once =>
      cases allow with
      | false => simp [except_pure_eq_ok] at h
      | true =>
        simp only [Bool.not_true, Bool.false_eq_true, if_false] at h
        cases hc : calculateDailyExecution ft hh hmi hs with
        | error e => rw [hc, except_bind_err] at h; exact absurd h (by simp)
        | ok dt' =>
          rw [hc, except_bind_ok] at h
          obtain rfl : dt' = dt := by simpa [except_pure_eq_ok] using h
          exact calculateDailyExecution_gt hv hc
    | daily =>
      cases hc : calculateDailyExecution ft hh hmi hs with
      | error e => rw [hc, except_bind_err] at h; exact absurd h (by simp)
      | ok dt' =>
        rw [hc, except_bind_ok] at h
        obtain rfl : dt' = dt := by simpa [except_pure_eq_ok] using h
        exact calculateDailyExecution_gt hv hc
    | weekly =>
      cases hc : weeklyBranch sd ft hh hmi hs with
      | error e => rw [hc, except_bind_err] at h; exact absurd h (by simp)
      | ok dt' =>
        rw [hc, except_bind_ok] at h
        obtain rfl : dt' = dt := by simpa [except_pure_eq_ok] using h
        exact weeklyBranch_gt hv hc
    | monthly =>
      cases hc : monthlyBranch sd ft hh hmi hs with
      | error e => rw [hc, except_bind_err] at h; exact absurd h (by simp)
      | ok dt' =>
        rw [hc, except_bind_ok] at h
        obtain rfl : dt' = dt := by simpa [except_pure_eq_ok] using h
        exact monthlyBranch_gt hv hc

/-- Inversion of the MONTHLY dispatch of `calculate_next_datetime`. -/
lemma calculateNextDatetime_monthly_inv {st : String} {sd : Option Int}
    {ft : PyDateTime} {allow : Bool} {dt : PyDateTime}
    (h : calculateNextDatetime .monthly st sd ft allow = .ok (some dt)) :
    ∃ hh mi ss, parseScheduledTime st = .ok (hh, mi, ss) ∧
      monthlyBranch sd ft hh mi ss = .ok dt := by
  unfold calculateNextDatetime at h
  cases hp : parseScheduledTime st with
  | error e => rw [hp, except_bind_err] at h; exact absurd h (by simp)
  | ok v =>
    obtain ⟨hh, hmi, hs⟩ := v
    rw [hp, except_bind_ok] at h
    dsimp only at h
    cases hc : monthlyBranch sd ft hh hmi hs with
    | error e => rw [hc, except_bind_err] at h; exact absurd h (by simp)
    | ok dt' =>
      rw [hc, except_bind_ok] at h
      obtain rfl : dt' = dt := by simpa [except_pure_eq_ok] using h
      exact ⟨hh, hmi, hs, rfl, hc⟩

/-- Full characterization of the MONTHLY branch: the returned day is the
clamped `min(scheduled_day, days_in_month)` of the returned month, and the
returned month is `from_time`'s month when the clamped candidate is strictly
in the future, else the successor month (December wrapping to January). -/
lemma monthlyBranch_spec {sdv : Int} {ft : PyDateTime} {h mi s : Nat}
    {dt : PyDateTime} (heq : monthlyBranch (some sdv) ft h mi s = .ok dt) :
    dt.hour = h ∧ dt.minute = mi ∧ dt.second = s ∧
    dt.day = min sdv.toNat (daysInMonth dt.year dt.month) ∧
    ((dt.year = ft.year ∧ dt.month = ft.month ∧ ft.pyLT dt) ∨
      ((dt.year, dt.month) = nextYearMonth ft.year ft.month ∧
        ∃ c : PyDateTime,
          pyDatetime ft.year ft.month (min sdv.toNat (daysInMonth ft.year ft.month))
            h mi s = .ok c ∧ c.pyLE ft)) := by
  unfold monthlyBranch at heq
  dsimp only at heq
  split at heq
  · exact absurd heq (by simp)
  · rename_i hrange
    cases hc : pyDatetime ft.year ft.month
        (min sdv.toNat (daysInMonth ft.year ft.month)) h mi s with
    | error e => rw [hc, except_bind_err] at heq; exact absurd heq (by simp)
    | ok testDt =>
      rw [hc, except_bind_ok] at heq
      try dsimp only at heq
      obtain ⟨hdef, hval⟩ := pyDatetime_ok hc
      split at heq
      · rename_i hle
        cases hc2 : pyDatetime (nextYearMonth ft.year ft.month).1
            (nextYearMonth ft.year ft.month).2
            (min sdv.toNat
              (daysInMonth (nextYearMonth ft.year ft.month).1
                (nextYearMonth ft.year ft.month).2)) h mi s with
        | error e => rw [hc2] at heq; exact absurd heq (by simp)
        | ok dt2 =>
          rw [hc2] at heq
          obtain ⟨hdef2, hval2⟩ := pyDatetime_ok hc2
          have hdt : dt = dt2 := by simpa using heq.symm
          subst hdt; subst hdef2
          refine ⟨rfl, rfl, rfl, rfl, Or.inr ⟨Prod.ext rfl rfl, testDt, rfl, hle⟩⟩
      · rename_i hgt
        have hdt : dt = testDt := by
          rw [except_pure_eq_ok] at heq
          simpa using heq.symm
        subst hdt; subst hdef
        simp only [PyDateTime.pyLE, not_le] at hgt
        exact ⟨rfl, rfl, rfl, rfl, Or.inl ⟨rfl, rfl, hgt⟩⟩

/-- **C3**: for every recurrence rule accepted at validation time and every
UTC reference time, whenever `calculate_next_datetime` returns a timestamp
(rather than `None`), that timestamp is strictly greater than `from_time`. -/
theorem claim_C3_recurrence_monotonic (rt : RecurrenceType) (st : String)
    (sd : Option Int) (ft : PyDateTime) (allow : Bool) (dt : PyDateTime)
    (hv : ft.Valid)
    (h : calculateNextDatetime rt st sd ft allow = .ok (some dt)) :
    ft.pyLT dt :=
  calculateNextDatetime_gt hv h

/-- Witness for C3 at a concrete input: DAILY `09:00:00` from
2026-03-10T09:00:00Z fires at 2026-03-11T09:00:00Z, strictly later. -/
theorem claim_C3_recurrence_monotonic_witness :
    (⟨2026, 3, 10, 9, 0, 0⟩ : PyDateTime).Valid ∧
    calculateNextDatetime .daily "09:00:00" none ⟨2026, 3, 10, 9, 0, 0⟩ false =
      .ok (some ⟨2026, 3, 11, 9, 0, 0⟩) ∧
    PyDateTime.pyLT ⟨2026, 3, 10, 9, 0, 0⟩ ⟨2026, 3, 11, 9, 0, 0⟩ :=
  ⟨by decide, by rfl,
    claim_C3_recurrence_monotonic .daily "09:00:00" none ⟨2026, 3, 10, 9, 0, 0⟩
      false ⟨2026, 3, 11, 9, 0, 0⟩ (by decide) (by rfl)⟩

/-- **C4**: the MONTHLY rule clamps the day to
`min(scheduled_day, days_in_month)` of the chosen month, advancing
`(year, month)` by one (December wrapping to January) exactly when the
clamped candidate in `from_time`'s month is not strictly in the future; in
particular `scheduled_day=31`, `scheduled_time=10:00:00` from
2026-01-31T12:00:00Z yields 2026-02-28T10:00:00Z. -/
theorem claim_C4_monthly_clamp :
    (∀ (st : String) (sdv : Int) (ft dt : PyDateTime),
      calculateNextDatetime .monthly st (some sdv) ft false = .ok (some dt) →
      dt.day = min sdv.toNat (daysInMonth dt.year dt.month) ∧
      ((dt.year = ft.year ∧ dt.month = ft.month ∧ ft.pyLT dt) ∨
        ((dt.year, dt.month) = nextYearMonth ft.year ft.month ∧
          ∃ c : PyDateTime,
            pyDatetime ft.year ft.month
                (min sdv.toNat (daysInMonth ft.year ft.month))
                dt.hour dt.minute dt.second = .ok c ∧
              c.pyLE ft))) ∧
    calculateNextDatetime .monthly "10:00:00" (some 31)
        ⟨2026, 1, 31, 12, 0, 0⟩ false =
      .ok (some ⟨2026, 2, 28, 10, 0, 0⟩) := by
  constructor
  · intro st sdv ft dt h
    obtain ⟨hh, mi, ss, hp, hb⟩ := calculateNextDatetime_monthly_inv h
    obtain ⟨eh, emi, es, hday, hcase⟩ := monthlyBranch_spec hb
    subst eh; subst emi; subst es
    exact ⟨hday, hcase⟩
  · rfl

/-- Witness for C4's universally quantified part, instantiated at the S2
month-end scenario. -/
theorem claim_C4_monthly_clamp_witness :
    calculateNextDatetime .monthly "10:00:00" (some 31)
        ⟨2026, 1, 31, 12, 0, 0⟩ false =
      .ok (some ⟨2026, 2, 28, 10, 0, 0⟩) ∧
    ((⟨2026, 2, 28, 10, 0, 0⟩ : PyDateTime).day =
      min (31 : Int).toNat (daysInMonth 2026 2) ∧
      (((2026 : Int), (2 : Nat)) = nextYearMonth 2026 1 ∧
        ∃ c : PyDateTime,
          pyDatetime 2026 1 (min (31 : Int).toNat (daysInMonth 2026 1))
              10 0 0 = .ok c ∧
            c.pyLE ⟨2026, 1, 31, 12, 0, 0⟩)) := by
  refine ⟨by rfl, ?_⟩
  have h := (claim_C4_monthly_clamp.1 "10:00:00" 31 ⟨2026, 1, 31, 12, 0, 0⟩
    ⟨2026, 2, 28, 10, 0, 0⟩ (by rfl))
  refine ⟨h.1, ?_⟩
  rcases h.2 with ⟨-, hm, -⟩ | hr
  · exact absurd hm (by decide)
  · exact hr

/-! ## Scheduler execution dedupe (`app/services/scheduler/execution.py`) -/

/-- `TaskExecutionStatus` enum of `app/models/db_models.py`. -/
inductive TaskExecutionStatus where
  | running
  | success
  | failed
  deriving DecidableEq, Repr

/-- A `TaskExecution` row, restricted to the columns the dedupe query reads.
Instants are embedded as integer seconds (`timedelta(minutes=2)` = 120 s);
the dedupe path only subtracts and compares instants, never touches the
calendar. -/
structure TaskExecution where
  task_id : Nat
  executed_at : Int
  status : TaskExecutionStatus
  deriving DecidableEq, Repr

/-- `check_duplicate_execution` of `app/services/scheduler/execution.py`:
true iff some `TaskExecution` row of this task has
`executed_at >= start_time - timedelta(minutes=2)` and status in
`{RUNNING, SUCCESS}`. -/
def check_duplicate_execution (db : List TaskExecution) (taskId : Nat)
    (startTime : Int) : Bool :=
  db.any fun e =>
    e.task_id == taskId &&
    decide (startTime - 120 ≤ e.executed_at) &&
    (e.status == .running || e.status == .success)

/-- Modelled from the spec: the per-task execution wrapper
`run_scheduled_task` (`app/services/scheduler/runner.py`, which is not under
`src/`) rejects the dispatch when `check_duplicate_execution` reports a
recent RUNNING/SUCCESS execution, and otherwise inserts
`TaskExecution(status=RUNNING, executed_at=start_time)` (spec §4.3 steps
2-3).  Returns the new table and whether the dispatch was accepted. -/
def dispatchScheduledTask (db : List TaskExecution) (taskId : Nat)
    (startTime : Int) : List TaskExecution × Bool :=
  if check_duplicate_execution db taskId startTime then (db, false)
  else (db ++ [⟨taskId, startTime, .running⟩], true)

/-- Number of RUNNING/SUCCESS executions of one task in the table. -/
def countActiveExecutions (db : List TaskExecution) (taskId : Nat) : Nat :=
  (db.filter fun e =>
    e.task_id == taskId && (e.status == .running || e.status == .success)).length

/-- **C5**: a second dispatch of a task is rejected exactly when a
RUNNING/SUCCESS execution of it exists at most 2 minutes old, so two
dispatches of the same task within the 2-minute window leave exactly one
RUNNING/SUCCESS `TaskExecution`. -/
theorem claim_C5_dedupe_window :
    (∀ (db : List TaskExecution) (t : Nat) (s : Int),
      check_duplicate_execution db t s = true ↔
        ∃ e ∈ db, e.task_id = t ∧ s - 120 ≤ e.executed_at ∧
          (e.status = .running ∨ e.status = .success)) ∧
    (∀ (db : List TaskExecution) (t : Nat) (t1 t2 : Int),
      countActiveExecutions db t = 0 → t1 ≤ t2 → t2 ≤ t1 + 120 →
      (dispatchScheduledTask db t t1).2 = true ∧
      (dispatchScheduledTask (dispatchScheduledTask db t t1).1 t t2).2 = false ∧
      countActiveExecutions
        (dispatchScheduledTask (dispatchScheduledTask db t t1).1 t t2).1 t = 1) := by
  have hiff : ∀ (db : List TaskExecution) (t : Nat) (s : Int),
      check_duplicate_execution db t s = true ↔
        ∃ e ∈ db, e.task_id = t ∧ s - 120 ≤ e.executed_at ∧
          (e.status = .running ∨ e.status = .success) := by
    intro db t s
    unfold check_duplicate_execution
    rw [List.any_eq_true]
    constructor
    · rintro ⟨e, he, hp⟩
      simp only [Bool.and_eq_true, Bool.or_eq_true, beq_iff_eq,
        decide_eq_true_eq] at hp
      exact ⟨e, he, hp.1.1, hp.1.2, hp.2⟩
    · rintro ⟨e, he, h1, h2, h3⟩
      refine ⟨e, he, ?_⟩
      simp only [Bool.and_eq_true, Bool.or_eq_true, beq_iff_eq,
        decide_eq_true_eq]
      exact ⟨⟨h1, h2⟩, h3⟩
  refine ⟨hiff, ?_⟩
  intro db t t1 t2 hcnt hle hwin
  have hchk1 : check_duplicate_execution db t t1 = false := by
    rw [Bool.eq_false_iff]
    intro htrue
    obtain ⟨e, he, het, -, hst⟩ := (hiff db t t1).mp htrue
    have : e ∈ db.filter fun e =>
        e.task_id == t && (e.status == .running || e.status == .success) := by
      rw [List.mem_filter]
      refine ⟨he, ?_⟩
      simp only [Bool.and_eq_true, Bool.or_eq_true, beq_iff_eq]
      exact ⟨het, hst⟩
    have hne : (db.filter fun e =>
        e.task_id == t && (e.status == .running || e.status == .success)) ≠ [] := by
      intro hnil
      rw [hnil] at this
      exact absurd this (List.not_mem_nil e)
    unfold countActiveExecutions at hcnt
    exact hne (List.length_eq_zero.mp hcnt)
  have hd1 : dispatchScheduledTask db t t1 =
      (db ++ [⟨t, t1, .running⟩], true) := by
    unfold dispatchScheduledTask
    rw [hchk1]
    simp
  have hchk2 : check_duplicate_execution (db ++ [⟨t, t1, .running⟩]) t t2 = true := by
    rw [hiff]
    refine ⟨⟨t, t1, .running⟩, by simp, rfl, by dsimp only; omega, Or.inl rfl⟩
  have hd2 : dispatchScheduledTask (db ++ [⟨t, t1, .running⟩]) t t2 =
      ((db ++ [⟨t, t1, .running⟩]), false) := by
    unfold dispatchScheduledTask
    rw [hchk2]
    simp
  rw [hd1]
  refine ⟨rfl, ?_, ?_⟩
  · rw [hd2]
  · rw [hd2]
    unfold countActiveExecutions at hcnt ⊢
    rw [List.filter_append, List.length_append, hcnt]
    simp

/-- Witness for C5's second conjunct at a concrete input: empty table, two
dispatches of task 0 at `t1 = 0` and `t2 = 60` seconds. -/
theorem claim_C5_dedupe_window_witness :
    countActiveExecutions [] 0 = 0 ∧ (0 : Int) ≤ 60 ∧ (60 : Int) ≤ 0 + 120 ∧
    ((dispatchScheduledTask [] 0 0).2 = true ∧
      (dispatchScheduledTask (dispatchScheduledTask [] 0 0).1 0 60).2 = false ∧
      countActiveExecutions
        (dispatchScheduledTask (dispatchScheduledTask [] 0 0).1 0 60).1 0 = 1) :=
  ⟨by decide, by decide, by decide,
    claim_C5_dedupe_window.2 [] 0 0 60 (by decide) (by decide) (by decide)⟩

/-! ## Queue service (`app/services/queue.py`) -/

/-- The Redis state behind one `chat:{chat_id}:queue` key: the list value
(entries are the serialized JSON records, kept opaque here) and the TTL last
set on the key by `EXPIRE` (`none` when never set). -/
structure RedisQueue where
  items : List String
  ttl : Option Nat
  deriving DecidableEq, Repr

/-- `QueueService.add_message`: read `LLEN`; fail with `queue full` when the
length is already `>= MAX_QUEUE_SIZE`; otherwise `RPUSH` the record, refresh
the TTL, and return the pre-push length as `position`.  `MAX_QUEUE_SIZE` and
`QUEUE_MESSAGE_TTL_SECONDS` live in `app/constants.py` (not under `src/`)
and are taken as parameters. -/
def add_message (maxQueueSize ttlSeconds : Nat) (q : RedisQueue)
    (payload : String) : Except String (RedisQueue × Nat) :=
  if maxQueueSize ≤ q.items.length then
    .error "Queue is full"
  else
    .ok ({ items := q.items ++ [payload], ttl := some ttlSeconds },
      q.items.length)

/-- `QueueService.pop_next_message`: `LPOP` of the queue key. -/
def pop_next_message (q : RedisQueue) : Option String × RedisQueue :=
  match q.items with
  | [] => (none, q)
  | x :: rest => (some x, { q with items := rest })

/-- **C7**: `add_message` fails exactly when the queue already holds
`MAX_QUEUE_SIZE` or more entries (leaving the stored list untouched, as the
failing call performs no write); otherwise it appends at the tail, refreshes
the TTL, and returns the pre-push length as position; and on a full queue a
pop re-enables a subsequent add. -/
theorem claim_C7_queue_bounded :
    (∀ (maxSize ttl : Nat) (q : RedisQueue) (m : String),
      (∃ err, add_message maxSize ttl q m = .error err) ↔
        maxSize ≤ q.items.length) ∧
    (∀ (maxSize ttl : Nat) (q : RedisQueue) (m : String),
      q.items.length < maxSize →
      add_message maxSize ttl q m =
        .ok ({ items := q.items ++ [m], ttl := some ttl }, q.items.length)) ∧
    (∀ (maxSize ttl : Nat) (q : RedisQueue) (m m' : String),
      1 ≤ maxSize → q.items.length = maxSize →
      (∃ err, add_message maxSize ttl q m = .error err) ∧
      ∃ x q', pop_next_message q = (some x, q') ∧
        ∃ r, add_message maxSize ttl q' m' = .ok r) := by
  refine ⟨?_, ?_, ?_⟩
  · intro maxSize ttl q m
    unfold add_message
    constructor
    · rintro ⟨err, herr⟩
      by_contra hlt
      rw [if_neg hlt] at herr
      exact absurd herr (by simp)
    · intro hge
      exact ⟨"Queue is full", by rw [if_pos hge]⟩
  · intro maxSize ttl q m hlt
    unfold add_message
    rw [if_neg (by omega)]
  · intro maxSize ttl q m m' hpos hfull
    refine ⟨⟨"Queue is full", by unfold add_message; rw [if_pos (by omega)]⟩, ?_⟩
    cases hq : q.items with
    | nil => rw [hq] at hfull; simp at hfull; omega
    | cons x rest =>
      refine ⟨x, { q with items := rest }, ?_, ?_⟩
      · unfold pop_next_message
        rw [hq]
      · exact ⟨(⟨rest ++ [m'], some ttl⟩, rest.length), by
          unfold add_message
          rw [if_neg (by
            dsimp only
            have hlen : q.items.length = rest.length + 1 := by rw [hq]; simp
            omega)]⟩

/-- Witness for C7 at concrete inputs: a queue holding one entry with
`MAX_QUEUE_SIZE = 1` rejects an add; after a pop, the add succeeds. -/
theorem claim_C7_queue_bounded_witness :
    ((⟨["a"], none⟩ : RedisQueue).items.length < 2 ∧
      add_message 2 5 ⟨["a"], none⟩ "b" =
        .ok (⟨["a", "b"], some 5⟩, 1)) ∧
    (1 ≤ 1 ∧ (⟨["a"], none⟩ : RedisQueue).items.length = 1 ∧
      ((∃ err, add_message 1 5 ⟨["a"], none⟩ "b" = .error err) ∧
        ∃ x q', pop_next_message ⟨["a"], none⟩ = (some x, q') ∧
          ∃ r, add_message 1 5 q' "c" = .ok r)) :=
  ⟨⟨by decide,
      by
        have h := claim_C7_queue_bounded.2.1 2 5 ⟨["a"], none⟩ "b" (by decide)
        simpa using h⟩,
    by decide, by decide,
    claim_C7_queue_bounded.2.2 1 5 ⟨["a"], none⟩ "b" "c" (by decide) (by decide)⟩

/-! ## Queue injector safe boundary
(`app/services/streaming/queue_injector.py`) -/

/-- Modelled from the spec: the `tool` field of a `StreamEvent`
(`app/services/streaming/events.py` is not under `src/`): a record with
`name` and an optional `parent_id` (`none` for an absent or JSON-null
field). -/
structure ToolInfo where
  name : String
  parent_id : Option String
  deriving DecidableEq, Repr

/-- Modelled from the spec: a `StreamEvent` tagged record
(`{type, ..., tool: {name, parent_id?}?}`), restricted to the two fields
`should_try_injection` reads.  `ty` stands for the `"type"` key; a missing
`tool` key is `none`. -/
structure StreamEvent where
  ty : String
  tool : Option ToolInfo
  deriving DecidableEq, Repr

/-- Python truthiness of `tool.get("parent_id")`: `None` and `""` are falsy,
every other string is truthy. -/
def pyTruthyStr (v : Option String) : Bool :=
  match v with
  | none => false
  | some s => !(s == "")

/-- `QueueInjector.should_try_injection`: `False` unless
`event.get("type") == "tool_completed"`; then `False` when
`event.get("tool", {}).get("parent_id")` is truthy; else `True`. -/
def should_try_injection (event : StreamEvent) : Bool :=
  if event.ty != "tool_completed" then false
  else if pyTruthyStr (event.tool.bind ToolInfo.parent_id) then false
  else true

/-- The spec's wording of the safe boundary: `e.type == "tool_completed"`
and `e.tool.parent_id` is null. -/
def injection_safe_spec (event : StreamEvent) : Prop :=
  event.ty = "tool_completed" ∧ event.tool.bind ToolInfo.parent_id = none

/-- Modelled from the spec: the streaming loop invites the Queue Injector
after exactly the events for which `should_try_injection` holds (the caller
lives in the provider-client module, which is not under `src/`). -/
def injectorInvited (event : StreamEvent) : Bool :=
  should_try_injection event

/-- **C8, counterexample**: the claimed equivalence between
`should_try_injection` and the spec's is-null condition fails on a
`tool_completed` event whose `tool.parent_id` is the empty string: the code
tests Python truthiness, so it returns `True` there, yet `parent_id` is not
null. -/
theorem claim_C8_injection_boundary_counterexample :
    ¬ (∀ e : StreamEvent, should_try_injection e = true ↔ injection_safe_spec e) := by
  intro hall
  have h := (hall ⟨"tool_completed", some ⟨"Bash", some ""⟩⟩).mp rfl
  have h2 := h.2
  simp [Option.bind] at h2

/-- **C8, amended**: the injector is invited exactly after events with
`type == "tool_completed"` whose `tool.parent_id` is absent, null, or falsy
(the empty string); for every other event it is not invited. -/
theorem claim_C8_injection_boundary_amended (e : StreamEvent) :
    injectorInvited e = should_try_injection e ∧
    (should_try_injection e = true ↔
      e.ty = "tool_completed" ∧
        (e.tool.bind ToolInfo.parent_id = none ∨
          e.tool.bind ToolInfo.parent_id = some "")) := by
  refine ⟨rfl, ?_⟩
  unfold should_try_injection pyTruthyStr
  cases hp : e.tool.bind ToolInfo.parent_id with
  | none => by_cases ht : e.ty = "tool_completed" <;> simp [ht]
  | some s =>
    by_cases ht : e.ty = "tool_completed" <;> by_cases hs : s = "" <;>
      simp [ht, hs]

/-! ## Scheduler service (`app/services/scheduler/service.py`) -/

/-- `TaskStatus` enum of `app/models/db_models.py`. -/
inductive TaskStatus where
  | active
  | paused
  | pending
  | completed
  deriving DecidableEq, Repr

/-- A `ScheduledTask` row, restricted to the columns the service's cap,
enable and toggle logic reads or writes. -/
structure ScheduledTask where
  id : Nat
  user_id : Nat
  recurrence_type : RecurrenceType
  scheduled_time : String
  scheduled_day : Option Int
  enabled : Bool
  status : TaskStatus
  next_execution : Option PyDateTime
  last_error : Option String
  deriving DecidableEq, Repr

/-- `validate_recurrence_constraints` of
`app/services/scheduler/recurrence.py`: WEEKLY requires
`scheduled_day ∈ 0..6`, MONTHLY requires `scheduled_day ∈ 1..31`; other
types accept anything. -/
def validate_recurrence_constraints (rt : RecurrenceType) (sd : Option Int) :
    Except PyError Unit :=
  match rt with
  | .weekly =>
    match sd with
    | none => .error (.schedulerException
        "Weekly tasks require scheduled_day between 0 (Monday) and 6 (Sunday)")
    | some d =>
      if 0 ≤ d ∧ d ≤ 6 then .ok ()
      else .error (.schedulerException
        "Weekly tasks require scheduled_day between 0 (Monday) and 6 (Sunday)")
  | .monthly =>
    match sd with
    | none => .error (.schedulerException
        "Monthly tasks require scheduled_day between 1 and 31")
    | some d =>
      if 1 ≤ d ∧ d ≤ 31 then .ok ()
      else .error (.schedulerException
        "Monthly tasks require scheduled_day between 1 and 31")
  | _ => .ok ()

/-- `calculate_initial_next_execution` of `recurrence.py`: the next fire
strictly after `now` with `allow_once=True`; a `None` result raises
`SchedulerException`. -/
def calculate_initial_next_execution (rt : RecurrenceType) (st : String)
    (sd : Option Int) (now : PyDateTime) : Except PyError PyDateTime :=
  match calculateNextDatetime rt st sd now true with
  | .error e => .error e
  | .ok none => .error (.schedulerException "Could not calculate next execution")
  | .ok (some dt) => .ok dt

/-- The filter of `SchedulerService._validate_task_limit`'s COUNT query:
same user, `enabled`, status in `{ACTIVE, PENDING}`, optionally excluding
one task id. -/
def activeTaskPred (userId : Nat) (excludeTaskId : Option Nat)
    (t : ScheduledTask) : Bool :=
  t.user_id == userId && t.enabled &&
    (t.status == .active || t.status == .pending) &&
    (match excludeTaskId with
      | none => true
      | some ex => !(t.id == ex))

/-- The COUNT returned by `_validate_task_limit`'s query. -/
def countActiveTasks (db : List ScheduledTask) (userId : Nat)
    (excludeTaskId : Option Nat) : Nat :=
  db.countP (activeTaskPred userId excludeTaskId)

/-- `MAX_TASKS_PER_USER` of `app/services/scheduler/service.py`. -/
def MAX_TASKS_PER_USER : Nat := 10

/-- `SchedulerService._validate_task_limit`: `count < MAX_TASKS_PER_USER`. -/
def validate_task_limit (db : List ScheduledTask) (userId : Nat)
    (excludeTaskId : Option Nat) : Bool :=
  countActiveTasks db userId excludeTaskId < MAX_TASKS_PER_USER

/-- `SchedulerService._get_user_task`: the task with this id owned by this
user (ids are unique in the table). -/
def getUserTask (db : List ScheduledTask) (taskId userId : Nat) :
    Option ScheduledTask :=
  db.find? fun t => t.id == taskId && t.user_id == userId

/-- Persisting the mutated ORM row: replace the row with the same id. -/
def updateTaskRow (db : List ScheduledTask) (t' : ScheduledTask) :
    List ScheduledTask :=
  db.map fun t => if t.id == t'.id then t' else t

/-- `SchedulerService._enable_task`: unless `skip_validation`, revalidate the
recurrence constraints and re-check the per-user cap excluding the task
itself; then set `enabled=True`, `status=ACTIVE`, clear `last_error`, and
recompute `next_execution` when it was cleared or a scheduling field
changed.  Returns the mutated row. -/
def enable_task (db : List ScheduledTask) (task : ScheduledTask)
    (userId : Nat) (recurrenceChanged timeChanged dayChanged : Bool)
    (skipValidation : Bool) (now : PyDateTime) :
    Except PyError ScheduledTask := do
  if !skipValidation then
    let _ ← validate_recurrence_constraints task.recurrence_type task.scheduled_day
    if !(validate_task_limit db userId (some task.id)) then
      throw (.schedulerException
        "Maximum number of active tasks (10) reached. Please disable another task first.")
  let t' := { task with enabled := true, status := .active, last_error := none }
  if t'.next_execution == none || recurrenceChanged || timeChanged || dayChanged then
    let ne ← calculate_initial_next_execution t'.recurrence_type
      t'.scheduled_time t'.scheduled_day now
    pure { t' with next_execution := some ne }
  else
    pure t'

/-- The fields of `ScheduledTaskBase` that `create_task` persists (names,
prompts and modes are irrelevant to the cap logic and omitted). -/
structure ScheduledTaskBase where
  recurrence_type : RecurrenceType
  scheduled_time : String
  scheduled_day : Option Int
  deriving DecidableEq, Repr

/-- `SchedulerService.create_task`: check the per-user cap, validate the
recurrence, compute the initial `next_execution`, and insert the row with
`status=ACTIVE`, `enabled=True`.  `newId` stands for the generated primary
key. -/
def create_task (db : List ScheduledTask) (userId : Nat)
    (td : ScheduledTaskBase) (newId : Nat) (now : PyDateTime) :
    Except PyError (List ScheduledTask) := do
  if !(validate_task_limit db userId none) then
    throw (.schedulerException
      "Maximum number of active tasks (10) reached. Please delete or disable an existing task.")
  let _ ← validate_recurrence_constraints td.recurrence_type td.scheduled_day
  let ne ← calculate_initial_next_execution td.recurrence_type
    td.scheduled_time td.scheduled_day now
  let newTask : ScheduledTask :=
    { id := newId,
      user_id := userId,
      recurrence_type := td.recurrence_type,
      scheduled_time := td.scheduled_time,
      scheduled_day := td.scheduled_day,
      enabled := true,
      status := .active,
      next_execution := some ne,
      last_error := none }
  pure (db ++ [newTask])

/-- `SchedulerService.toggle_task`: flip `enabled`; enabling goes through
`_enable_task` with all change flags set (so `next_execution` is always
recomputed); disabling sets `status=PAUSED`. -/
def toggle_task (db : List ScheduledTask) (taskId userId : Nat)
    (now : PyDateTime) : Except PyError (List ScheduledTask) := do
  match getUserTask db taskId userId with
  | none => throw (.schedulerException "Scheduled task not found")
  | some task =>
    if !task.enabled then do
      let t' ← enable_task db task userId true true true false now
      pure (updateTaskRow db t')
    else
      pure (updateTaskRow db { task with enabled := false, status := .paused })

/-- The optional fields of `ScheduledTaskUpdate` that affect the cap/enable
logic (`exclude_unset` semantics: `none` means the field was not sent). -/
structure ScheduledTaskUpdate where
  recurrence_type : Option RecurrenceType
  scheduled_time : Option String
  scheduled_day : Option (Option Int)
  enabled : Option Bool
  deriving DecidableEq, Repr

/-- `SchedulerService.update_task`: apply the sent fields (with `enabled`
popped out), revalidate and recompute `next_execution` when a scheduling
field changed, then handle `enabled`: enabling goes through `_enable_task`
with `skip_validation = task.enabled` (the pre-existing value); disabling
sets `status=PAUSED`. -/
def update_task (db : List ScheduledTask) (taskId userId : Nat)
    (upd : ScheduledTaskUpdate) (now : PyDateTime) :
    Except PyError (List ScheduledTask) := do
  match getUserTask db taskId userId with
  | none => throw (.schedulerException "Scheduled task not found")
  | some task =>
    let recurrenceChanged := upd.recurrence_type.isSome
    let timeChanged := upd.scheduled_time.isSome
    let dayChanged := upd.scheduled_day.isSome
    let task1 : ScheduledTask := { task with
      recurrence_type := upd.recurrence_type.getD task.recurrence_type,
      scheduled_time := upd.scheduled_time.getD task.scheduled_time,
      scheduled_day := upd.scheduled_day.getD task.scheduled_day }
    let task2 ← (if recurrenceChanged || timeChanged || dayChanged then do
        let _ ← validate_recurrence_constraints task1.recurrence_type
          task1.scheduled_day
        let ne ← calculate_initial_next_execution task1.recurrence_type
          task1.scheduled_time task1.scheduled_day now
        pure { task1 with next_execution := some ne }
      else
        pure task1)
    match upd.enabled with
    | none => pure (updateTaskRow db task2)
    | some true => do
      let t' ← enable_task db task2 userId recurrenceChanged timeChanged
        dayChanged task2.enabled now
      pure (updateTaskRow db t')
    | some false =>
      pure (updateTaskRow db { task2 with enabled := false, status := .paused })

/-- The combined structural invariant of the scheduled-task table: the
per-user cap, the coupling of `enabled` with a live status, and primary-key
uniqueness. -/
def SchedInv (db : List ScheduledTask) : Prop :=
  (∀ u, countActiveTasks db u none ≤ MAX_TASKS_PER_USER) ∧
  (∀ t ∈ db, t.enabled = true → (t.status = .active ∨ t.status = .pending)) ∧
  (db.map ScheduledTask.id).Nodup

lemma activeTaskPred_some (u ex : Nat) (t : ScheduledTask) :
    activeTaskPred u (some ex) t =
      (activeTaskPred u none t && !(t.id == ex)) := by
  unfold activeTaskPred
  dsimp only
  cases t.user_id == u <;> cases t.enabled <;>
    cases t.status == .active || t.status == .pending <;>
    cases t.id == ex <;> rfl

lemma updateTaskRow_of_id_not_mem {l : List ScheduledTask}
    {t' : ScheduledTask} (h : t'.id ∉ l.map ScheduledTask.id) :
    updateTaskRow l t' = l := by
  induction l with
  | nil => rfl
  | cons a l ih =>
    simp only [List.map_cons, List.mem_cons, not_or] at h
    unfold updateTaskRow
    simp only [List.map_cons]
    rw [if_neg (by simp; omega)]
    have := ih h.2
    unfold updateTaskRow at this
    rw [this]

lemma countP_and_ne_of_id_not_mem {l : List ScheduledTask} {tid : Nat}
    (h : tid ∉ l.map ScheduledTask.id) (p : ScheduledTask → Bool) :
    l.countP (fun s => p s && !(s.id == tid)) = l.countP p := by
  induction l with
  | nil => rfl
  | cons a l ih =>
    simp only [List.map_cons, List.mem_cons, not_or] at h
    rw [List.countP_cons, List.countP_cons, ih h.2]
    have hne : (a.id == tid) = false := by
      simp only [beq_eq_false_iff_ne, ne_eq]
      omega
    rw [hne]
    simp

lemma countP_le_of_and {l : List ScheduledTask} {tid : Nat}
    (p : ScheduledTask → Bool) :
    l.countP (fun s => p s && !(s.id == tid)) ≤ l.countP p := by
  induction l with
  | nil => exact le_refl _
  | cons a l ih =>
    rw [List.countP_cons, List.countP_cons]
    cases hp : p a <;> cases hi : a.id == tid <;>
      first
        | rfl
        | (simp; omega)
        | simp
        | omega

lemma countP_updateTaskRow_nodup {db : List ScheduledTask}
    {task t' : ScheduledTask} (p : ScheduledTask → Bool) (hmem : task ∈ db)
    (hid : t'.id = task.id) (hnd : (db.map ScheduledTask.id).Nodup) :
    (updateTaskRow db t').countP p =
      db.countP (fun s => p s && !(s.id == task.id)) +
        (if p t' then 1 else 0) := by
  induction db with
  | nil => cases hmem
  | cons a l ih =>
    simp only [List.map_cons, List.nodup_cons] at hnd
    obtain ⟨ha, hl⟩ := hnd
    unfold updateTaskRow
    simp only [List.map_cons, List.countP_cons]
    by_cases hae : a.id = task.id
    · have hbeq : (a.id == t'.id) = true := by
        simp only [beq_iff_eq]; omega
      rw [hbeq]
      simp only [if_true]
      have hnotmem : t'.id ∉ l.map ScheduledTask.id := by
        rw [hid, ← hae]; exact ha
      have hrow := updateTaskRow_of_id_not_mem hnotmem
      unfold updateTaskRow at hrow
      rw [hrow]
      have hnotmem2 : task.id ∉ l.map ScheduledTask.id := by
        rw [← hae]; exact ha
      rw [countP_and_ne_of_id_not_mem hnotmem2]
      have hfa : (a.id == task.id) = true := by simp only [beq_iff_eq]; omega
      rw [hfa]
      cases p a <;> cases p t' <;>
        first
          | rfl
          | (simp; omega)
          | simp
          | omega
    · have hbeq : (a.id == t'.id) = false := by
        simp only [beq_eq_false_iff_ne, ne_eq]; omega
      rw [hbeq]
      simp only [Bool.false_eq_true, if_false]
      have htaskl : task ∈ l := by
        cases List.mem_cons.mp hmem with
        | inl h => exact absurd (congrArg ScheduledTask.id h).symm hae
        | inr h => exact h
      have := ih htaskl hl
      unfold updateTaskRow at this
      rw [this]
      have hfa : (a.id == task.id) = false := by
        simp only [beq_eq_false_iff_ne, ne_eq]; omega
      rw [hfa]
      cases p a <;> cases p t' <;>
        first
          | rfl
          | (simp; omega)
          | simp
          | omega

lemma countP_and_ne_succ_le {db : List ScheduledTask} {task : ScheduledTask}
    (p : ScheduledTask → Bool) (hmem : task ∈ db) (hp : p task = true)
    (hnd : (db.map ScheduledTask.id).Nodup) :
    db.countP (fun s => p s && !(s.id == task.id)) + 1 ≤ db.countP p := by
  induction db with
  | nil => cases hmem
  | cons a l ih =>
    simp only [List.map_cons, List.nodup_cons] at hnd
    obtain ⟨ha, hl⟩ := hnd
    rw [List.countP_cons, List.countP_cons]
    by_cases hae : a.id = task.id
    · have htaska : task = a := by
        cases List.mem_cons.mp hmem with
        | inl h => exact h
        | inr h =>
          exact absurd (List.mem_map_of_mem ScheduledTask.id h)
            (by rw [← hae] at *; simpa using ha)
      subst htaska
      have hfa : (task.id == task.id) = true := by simp
      rw [hfa]
      have hnotmem : task.id ∉ l.map ScheduledTask.id := hae ▸ ha
      rw [countP_and_ne_of_id_not_mem hnotmem, hp]
      simp
    · have htaskl : task ∈ l := by
        cases List.mem_cons.mp hmem with
        | inl h => exact absurd (congrArg ScheduledTask.id h).symm hae
        | inr h => exact h
      have hfa : (a.id == task.id) = false := by
        simp only [beq_eq_false_iff_ne, ne_eq]; omega
      rw [hfa]
      have := ih htaskl hl
      cases p a <;>
        first
          | (simp; omega)
          | simp
          | omega

lemma map_id_updateTaskRow (db : List ScheduledTask) (t' : ScheduledTask) :
    (updateTaskRow db t').map ScheduledTask.id = db.map ScheduledTask.id := by
  induction db with
  | nil => rfl
  | cons a l ih =>
    unfold updateTaskRow
    simp only [List.map_cons]
    unfold updateTaskRow at ih
    rw [ih]
    by_cases h : a.id = t'.id
    · rw [if_pos (by simpa using h)]
      simp [h]
    · rw [if_neg (by simpa using h)]

lemma mem_updateTaskRow {db : List ScheduledTask} {t' s : ScheduledTask}
    (h : s ∈ updateTaskRow db t') : s = t' ∨ s ∈ db := by
  unfold updateTaskRow at h
  obtain ⟨orig, horig, heq⟩ := List.mem_map.mp h
  by_cases hc : orig.id = t'.id
  · rw [if_pos (by simpa using hc)] at heq
    exact Or.inl heq.symm
  · rw [if_neg (by simpa using hc)] at heq
    exact Or.inr (heq ▸ horig)

lemma getUserTask_spec {db : List ScheduledTask} {tid uid : Nat}
    {task : ScheduledTask} (h : getUserTask db tid uid = some task) :
    task ∈ db ∧ task.id = tid ∧ task.user_id = uid := by
  unfold getUserTask at h
  have hmem := List.mem_of_find?_eq_some h
  have hp := List.find?_some h
  simp only [Bool.and_eq_true, beq_iff_eq] at hp
  exact ⟨hmem, hp.1, hp.2⟩

lemma countP_ext {α : Type} (p q : α → Bool) (l : List α)
    (h : ∀ a, p a = q a) : l.countP p = l.countP q := by
  induction l with
  | nil => rfl
  | cons a l ih => rw [List.countP_cons, List.countP_cons, ih, h a]

lemma countActiveTasks_some_eq (db : List ScheduledTask) (u tid : Nat) :
    countActiveTasks db u (some tid) =
      db.countP (fun s => activeTaskPred u none s && !(s.id == tid)) := by
  unfold countActiveTasks
  exact countP_ext _ _ db (fun a => activeTaskPred_some u tid a)

lemma activeTaskPred_false_of_disabled {u : Nat} {t : ScheduledTask}
    (h : t.enabled = false) : activeTaskPred u none t = false := by
  unfold activeTaskPred
  rw [h]
  cases t.user_id == u <;> rfl

lemma activeTaskPred_congr {u : Nat} {s t : ScheduledTask}
    (hu : s.user_id = t.user_id) (he : s.enabled = t.enabled)
    (hs : s.status = t.status) :
    activeTaskPred u none s = activeTaskPred u none t := by
  unfold activeTaskPred
  rw [hu, he, hs]

lemma activeTaskPred_user {u : Nat} {t : ScheduledTask}
    (h : activeTaskPred u none t = true) :
    t.user_id = u ∧ t.enabled = true ∧
      (t.status = .active ∨ t.status = .pending) := by
  unfold activeTaskPred at h
  simp only [Bool.and_eq_true, Bool.or_eq_true, beq_iff_eq] at h
  exact ⟨h.1.1.1, h.1.1.2, h.1.2⟩

lemma except_throw_eq_error {α ε : Type} (e : ε) :
    (throw e : Except ε α) = Except.error e := rfl

/-- Shape of a successful `_enable_task`: the row keeps its id and owner,
comes out enabled and `ACTIVE`, and (unless validation was skipped) the
per-user cap excluding the task itself was checked. -/
lemma enable_task_ok {db : List ScheduledTask} {task : ScheduledTask}
    {userId : Nat} {rc tc dc skip : Bool} {now : PyDateTime}
    {t' : ScheduledTask}
    (h : enable_task db task userId rc tc dc skip now = .ok t') :
    t'.id = task.id ∧ t'.user_id = task.user_id ∧ t'.enabled = true ∧
    t'.status = .active ∧
    (skip = false →
      countActiveTasks db userId (some task.id) < MAX_TASKS_PER_USER) := by
  unfold enable_task at h
  cases skip with
  | true =>
    simp only [Bool.not_true, Bool.false_eq_true, if_false,
      except_pure_eq_ok, except_bind_ok] at h
    try dsimp only at h
    split at h
    · cases hc : calculate_initial_next_execution task.recurrence_type
          task.scheduled_time task.scheduled_day now with
      | error e => rw [hc, except_bind_err] at h; exact absurd h (by simp)
      | ok ne =>
        rw [hc, except_bind_ok] at h
        obtain rfl : _ = t' := by simpa [except_pure_eq_ok] using h
        exact ⟨rfl, rfl, rfl, rfl, by intro hct; exact absurd hct (by decide)⟩
    · obtain rfl : _ = t' := by simpa [except_pure_eq_ok] using h
      exact ⟨rfl, rfl, rfl, rfl, by intro hct; exact absurd hct (by decide)⟩
  | false =>
    simp only [Bool.not_false, if_true] at h
    cases hv : validate_recurrence_constraints task.recurrence_type
        task.scheduled_day with
    | error e => rw [hv, except_bind_err] at h; exact absurd h (by simp)
    | ok uv =>
      rw [hv, except_bind_ok] at h
      by_cases hlim : validate_task_limit db userId (some task.id)
      · simp only [hlim, Bool.not_true, Bool.false_eq_true, if_false] at h
        have hcnt : countActiveTasks db userId (some task.id) <
            MAX_TASKS_PER_USER := by
          unfold validate_task_limit at hlim
          exact of_decide_eq_true hlim
        simp only [except_pure_eq_ok, except_bind_ok] at h
        try dsimp only at h
        split at h
        · cases hc : calculate_initial_next_execution task.recurrence_type
              task.scheduled_time task.scheduled_day now with
          | error e => rw [hc, except_bind_err] at h; exact absurd h (by simp)
          | ok ne =>
            rw [hc, except_bind_ok] at h
            obtain rfl : _ = t' := by simpa [except_pure_eq_ok] using h
            exact ⟨rfl, rfl, rfl, rfl, fun _ => hcnt⟩
        · obtain rfl : _ = t' := by simpa [except_pure_eq_ok] using h
          exact ⟨rfl, rfl, rfl, rfl, fun _ => hcnt⟩
      · rw [Bool.not_eq_true] at hlim
        simp only [hlim, Bool.not_false, if_true, except_throw_eq_error,
          except_bind_err] at h
        exact absurd h (by simp)

/-- Replacing one row preserves the scheduler invariant provided the new row
keeps id and owner and its being counted is justified either by a passed cap
check or by the old row having been counted already. -/
lemma schedinv_updateTaskRow {db : List ScheduledTask}
    {task t' : ScheduledTask} (hinv : SchedInv db) (hmem : task ∈ db)
    (hid : t'.id = task.id) (huser : t'.user_id = task.user_id)
    (hcoup : t'.enabled = true → t'.status = .active ∨ t'.status = .pending)
    (hok : ∀ u, activeTaskPred u none t' = true →
      (countActiveTasks db u (some task.id) < MAX_TASKS_PER_USER ∨
        activeTaskPred u none task = true)) :
    SchedInv (updateTaskRow db t') := by
  obtain ⟨hcap, hcouple, hnd⟩ := hinv
  refine ⟨?_, ?_, ?_⟩
  · intro u
    unfold countActiveTasks
    rw [countP_updateTaskRow_nodup (activeTaskPred u none) hmem hid hnd]
    cases hp : activeTaskPred u none t' with
    | false =>
      simp only [Bool.false_eq_true, if_false, Nat.add_zero]
      exact le_trans (countP_le_of_and (activeTaskPred u none))
        (hcap u)
    | true =>
      simp only [if_true]
      cases hok u hp with
      | inl hlt =>
        rw [countActiveTasks_some_eq] at hlt
        omega
      | inr hpt =>
        have := countP_and_ne_succ_le (activeTaskPred u none) hmem hpt hnd
        have := hcap u
        unfold countActiveTasks at this
        omega
  · intro s hs he
    cases mem_updateTaskRow hs with
    | inl h => exact h ▸ hcoup (h ▸ he)
    | inr h => exact hcouple s h he
  · rw [map_id_updateTaskRow]
    exact hnd

lemma validate_recurrence_constraints_error {rt : RecurrenceType}
    {sd : Option Int} {e : PyError}
    (h : validate_recurrence_constraints rt sd = .error e) :
    ∃ m, e = .schedulerException m := by
  unfold validate_recurrence_constraints at h
  cases rt with
  | once => exact absurd h (by simp)
  | daily => exact absurd h (by simp)
  | weekly =>
    cases sd with
    | none =>
      dsimp only at h
      simp only [Except.error.injEq] at h
      exact ⟨_, h.symm⟩
    | some d =>
      dsimp only at h
      split at h
      · exact absurd h (by simp)
      · simp only [Except.error.injEq] at h
        exact ⟨_, h.symm⟩
  | monthly =>
    cases sd with
    | none =>
      dsimp only at h
      simp only [Except.error.injEq] at h
      exact ⟨_, h.symm⟩
    | some d =>
      dsimp only at h
      split at h
      · exact absurd h (by simp)
      · simp only [Except.error.injEq] at h
        exact ⟨_, h.symm⟩

/-- `_enable_task` with validation always raises `SchedulerException` when
the per-user cap (excluding the task itself) is already full. -/
lemma enable_task_rejected {db : List ScheduledTask} {task : ScheduledTask}
    {userId : Nat} {rc tc dc : Bool} {now : PyDateTime}
    (hcnt : MAX_TASKS_PER_USER ≤ countActiveTasks db userId (some task.id)) :
    ∃ m, enable_task db task userId rc tc dc false now =
      .error (.schedulerException m) := by
  unfold enable_task
  simp only [Bool.not_false, if_true]
  cases hv : validate_recurrence_constraints task.recurrence_type
      task.scheduled_day with
  | error e =>
    obtain ⟨m, hm⟩ := validate_recurrence_constraints_error hv
    exact ⟨m, by rw [except_bind_err, hm]⟩
  | ok uv =>
    have hlim : validate_task_limit db userId (some task.id) = false := by
      unfold validate_task_limit
      rw [decide_eq_false (by omega)]
    refine ⟨"Maximum number of active tasks (10) reached. Please disable another task first.", ?_⟩
    rw [except_bind_ok]
    simp only [hlim, Bool.not_false, if_true, except_throw_eq_error,
      except_bind_err]

/-- `create_task` raises the cap `SchedulerException` whenever the user
already has `MAX_TASKS_PER_USER` enabled ACTIVE/PENDING tasks. -/
lemma create_task_rejected {db : List ScheduledTask} {u : Nat}
    {td : ScheduledTaskBase} {newId : Nat} {now : PyDateTime}
    (hcnt : MAX_TASKS_PER_USER ≤ countActiveTasks db u none) :
    create_task db u td newId now =
      .error (.schedulerException
        "Maximum number of active tasks (10) reached. Please delete or disable an existing task.") := by
  unfold create_task
  have hlim : validate_task_limit db u none = false := by
    unfold validate_task_limit
    rw [decide_eq_false (by omega)]
  simp only [hlim, Bool.not_false, if_true, except_throw_eq_error,
    except_bind_err]

/-- Shape of a successful `create_task`: the cap was free and the new row is
appended owned, enabled and ACTIVE. -/
lemma create_task_ok {db : List ScheduledTask} {u : Nat}
    {td : ScheduledTaskBase} {newId : Nat} {now : PyDateTime}
    {db' : List ScheduledTask} (h : create_task db u td newId now = .ok db') :
    countActiveTasks db u none < MAX_TASKS_PER_USER ∧
    ∃ ne, db' = db ++
      [{ id := newId, user_id := u,
         recurrence_type := td.recurrence_type,
         scheduled_time := td.scheduled_time,
         scheduled_day := td.scheduled_day,
         enabled := true, status := .active,
         next_execution := some ne, last_error := none }] := by
  unfold create_task at h
  by_cases hlim : validate_task_limit db u none
  · have hcnt : countActiveTasks db u none < MAX_TASKS_PER_USER := by
      unfold validate_task_limit at hlim
      exact of_decide_eq_true hlim
    simp only [hlim, Bool.not_true, Bool.false_eq_true, if_false,
      except_pure_eq_ok, except_bind_ok] at h
    cases hv : validate_recurrence_constraints td.recurrence_type
        td.scheduled_day with
    | error e => rw [hv, except_bind_err] at h; exact absurd h (by simp)
    | ok uv =>
      rw [hv, except_bind_ok] at h
      cases hc : calculate_initial_next_execution td.recurrence_type
          td.scheduled_time td.scheduled_day now with
      | error e => rw [hc, except_bind_err] at h; exact absurd h (by simp)
      | ok ne =>
        rw [hc, except_bind_ok] at h
        refine ⟨hcnt, ne, ?_⟩
        have := h
        simpa [except_pure_eq_ok] using this.symm
  · rw [Bool.not_eq_true] at hlim
    simp only [hlim, Bool.not_false, if_true, except_throw_eq_error,
      except_bind_err] at h
    exact absurd h (by simp)

/-- `create_task` preserves the scheduler invariant (the generated primary
key being fresh). -/
lemma create_task_preserves {db : List ScheduledTask} {u : Nat}
    {td : ScheduledTaskBase} {newId : Nat} {now : PyDateTime}
    {db' : List ScheduledTask} (hinv : SchedInv db)
    (hfresh : newId ∉ db.map ScheduledTask.id)
    (h : create_task db u td newId now = .ok db') : SchedInv db' := by
  obtain ⟨hcap, hcouple, hnd⟩ := hinv
  obtain ⟨hcnt, ne, hdb⟩ := create_task_ok h
  subst hdb
  refine ⟨?_, ?_, ?_⟩
  · intro u'
    unfold countActiveTasks
    rw [List.countP_append]
    by_cases hu : u' = u
    · subst hu
      have hpred : (List.countP (activeTaskPred u' none)
          [({ id := newId, user_id := u',
              recurrence_type := td.recurrence_type,
              scheduled_time := td.scheduled_time,
              scheduled_day := td.scheduled_day,
              enabled := true, status := .active,
              next_execution := some ne, last_error := none } :
            ScheduledTask)]) = 1 := by
        rw [List.countP_cons, List.countP_nil]
        have : activeTaskPred u' none
            { id := newId, user_id := u',
              recurrence_type := td.recurrence_type,
              scheduled_time := td.scheduled_time,
              scheduled_day := td.scheduled_day,
              enabled := true, status := .active,
              next_execution := some ne, last_error := none } = true := by
          unfold activeTaskPred
          simp
        rw [this]
        simp
      rw [hpred]
      have := hcnt
      unfold countActiveTasks at this
      omega
    · have hpred : (List.countP (activeTaskPred u' none)
          [({ id := newId, user_id := u,
              recurrence_type := td.recurrence_type,
              scheduled_time := td.scheduled_time,
              scheduled_day := td.scheduled_day,
              enabled := true, status := .active,
              next_execution := some ne, last_error := none } :
            ScheduledTask)]) = 0 := by
        rw [List.countP_cons, List.countP_nil]
        have : activeTaskPred u' none
            { id := newId, user_id := u,
              recurrence_type := td.recurrence_type,
              scheduled_time := td.scheduled_time,
              scheduled_day := td.scheduled_day,
              enabled := true, status := .active,
              next_execution := some ne, last_error := none } = false := by
          unfold activeTaskPred
          have : (u == u') = false := by
            simp only [beq_eq_false_iff_ne, ne_eq]
            omega
          simp [this]
        rw [this]
        simp
      rw [hpred]
      have := hcap u'
      unfold countActiveTasks at this
      omega
  · intro s hs he
    cases List.mem_append.mp hs with
    | inl hmem => exact hcouple s hmem he
    | inr hmem =>
      simp only [List.mem_singleton] at hmem
      subst hmem
      exact Or.inl rfl
  · rw [List.map_append]
    simp only [List.map_cons, List.map_nil]
    rw [List.nodup_append]
    exact ⟨hnd, List.nodup_singleton _, by
      intro a ha hb
      simp only [List.mem_singleton] at hb
      subst hb
      exact hfresh ha⟩

/-- `toggle_task` on a disabled task raises `SchedulerException` when ten
other enabled ACTIVE/PENDING tasks exist for the user (the task itself being
excluded from its own count). -/
lemma toggle_task_rejected {db : List ScheduledTask} {tid u : Nat}
    {now : PyDateTime} {task : ScheduledTask}
    (hfind : getUserTask db tid u = some task) (hdis : task.enabled = false)
    (hcnt : MAX_TASKS_PER_USER ≤ countActiveTasks db u (some task.id)) :
    ∃ m, toggle_task db tid u now = .error (.schedulerException m) := by
  obtain ⟨m, hm⟩ := @enable_task_rejected db task u true true true now hcnt
  refine ⟨m, ?_⟩
  unfold toggle_task
  rw [hfind]
  dsimp only
  rw [hdis]
  simp only [Bool.not_false, if_true]
  rw [hm, except_bind_err]

/-- `toggle_task` preserves the scheduler invariant. -/
lemma toggle_task_preserves {db : List ScheduledTask} {tid u : Nat}
    {now : PyDateTime} {db' : List ScheduledTask} (hinv : SchedInv db)
    (h : toggle_task db tid u now = .ok db') : SchedInv db' := by
  unfold toggle_task at h
  cases hfind : getUserTask db tid u with
  | none => rw [hfind] at h; exact absurd h (by simp [except_throw_eq_error])
  | some task =>
    rw [hfind] at h
    dsimp only at h
    obtain ⟨hmem, hidt, huid⟩ := getUserTask_spec hfind
    cases hen : task.enabled with
    | true =>
      rw [hen] at h
      simp only [Bool.not_true, Bool.false_eq_true, if_false,
        except_pure_eq_ok] at h
      obtain rfl : db' = updateTaskRow db { task with enabled := false, status := .paused } := by
        simpa using h.symm
      exact schedinv_updateTaskRow hinv hmem rfl rfl
        (fun hc => absurd hc (by simp))
        (fun u' hp => absurd hp (by
          rw [activeTaskPred_false_of_disabled rfl]
          simp))
    | false =>
      rw [hen] at h
      simp only [Bool.not_false, if_true] at h
      cases he : enable_task db task u true true true false now with
      | error e => rw [he, except_bind_err] at h; exact absurd h (by simp)
      | ok t' =>
        rw [he, except_bind_ok] at h
        obtain rfl : db' = updateTaskRow db t' := by
          simpa [except_pure_eq_ok] using h.symm
        obtain ⟨hid', huser', hen', hst', hcnt'⟩ := enable_task_ok he
        refine schedinv_updateTaskRow hinv hmem hid' (by rw [huser'])
          (fun _ => Or.inl hst') ?_
        intro u' hp
        obtain ⟨hu', -, -⟩ := activeTaskPred_user hp
        have : u' = u := by rw [← hu', huser', huid]
        subst this
        exact Or.inl (hcnt' rfl)

/-- The enabled-handling tail of `update_task` (the `enabled=True` arm)
preserves the scheduler invariant. -/
lemma update_enable_branch_preserves {db : List ScheduledTask}
    {task task2 : ScheduledTask} {u : Nat} {rc tc dc : Bool}
    {now : PyDateTime} {db' : List ScheduledTask} (hinv : SchedInv db)
    (hmem : task ∈ db) (hid2 : task2.id = task.id)
    (huser2 : task2.user_id = task.user_id)
    (hen2 : task2.enabled = task.enabled) (huid : task.user_id = u)
    (h : (enable_task db task2 u rc tc dc task2.enabled now >>=
      fun t' => pure (updateTaskRow db t')) = .ok db') :
    SchedInv db' := by
  cases he : enable_task db task2 u rc tc dc task2.enabled now with
  | error e => rw [he, except_bind_err] at h; exact absurd h (by simp)
  | ok t' =>
    rw [he, except_bind_ok] at h
    obtain rfl : db' = updateTaskRow db t' := by
      simpa [except_pure_eq_ok] using h.symm
    obtain ⟨hid', huser', hen', hst', hcnt'⟩ := enable_task_ok he
    refine schedinv_updateTaskRow hinv hmem (by rw [hid', hid2])
      (by rw [huser', huser2]) (fun _ => Or.inl hst') ?_
    intro u' hp
    obtain ⟨hu', -, -⟩ := activeTaskPred_user hp
    have hu'u : u' = u := by rw [← hu', huser', huser2, huid]
    subst hu'u
    cases henb : task.enabled with
    | false =>
      have hskip : task2.enabled = false := by rw [hen2, henb]
      have := hcnt' hskip
      rw [hid2] at this
      exact Or.inl this
    | true =>
      refine Or.inr ?_
      have hst := hinv.2.1 task hmem henb
      unfold activeTaskPred
      rcases hst with hs | hs <;> simp [huid, henb, hs]

/-- `update_task` preserves the scheduler invariant. -/
lemma update_task_preserves {db : List ScheduledTask} {tid u : Nat}
    {upd : ScheduledTaskUpdate} {now : PyDateTime} {db' : List ScheduledTask}
    (hinv : SchedInv db) (h : update_task db tid u upd now = .ok db') :
    SchedInv db' := by
  unfold update_task at h
  cases hfind : getUserTask db tid u with
  | none => rw [hfind] at h; exact absurd h (by simp [except_throw_eq_error])
  | some task =>
    rw [hfind] at h
    dsimp only at h
    obtain ⟨hmem, hidt, huid⟩ := getUserTask_spec hfind
    split at h
    · -- a scheduling field changed: revalidate and recompute, then continue
      cases hv : validate_recurrence_constraints
          (upd.recurrence_type.getD task.recurrence_type)
          (upd.scheduled_day.getD task.scheduled_day) with
      | error e =>
        rw [hv, except_bind_err, except_bind_err] at h
        exact absurd h (by simp)
      | ok uv =>
        rw [hv, except_bind_ok] at h
        cases hc : calculate_initial_next_execution
            (upd.recurrence_type.getD task.recurrence_type)
            (upd.scheduled_time.getD task.scheduled_time)
            (upd.scheduled_day.getD task.scheduled_day) now with
        | error e =>
          rw [hc, except_bind_err, except_bind_err] at h
          exact absurd h (by simp)
        | ok ne =>
          rw [hc, except_bind_ok, except_pure_eq_ok, except_bind_ok] at h
          dsimp only at h
          cases henb : upd.enabled with
          | none =>
            rw [henb] at h
            dsimp only at h
            obtain rfl : db' = updateTaskRow db _ := by
              simpa [except_pure_eq_ok] using h.symm
            refine schedinv_updateTaskRow hinv hmem rfl rfl ?_ ?_
            · intro he
              exact hinv.2.1 task hmem he
            · intro u' hp
              refine Or.inr ?_
              rw [← hp]
              exact (activeTaskPred_congr rfl rfl rfl).symm
          | some b =>
            rw [henb] at h
            cases b with
            | true =>
              dsimp only at h
              refine update_enable_branch_preserves hinv hmem ?_ ?_ ?_
                huid h <;> rfl
            | false =>
              dsimp only at h
              obtain rfl : db' = updateTaskRow db _ := by
                simpa [except_pure_eq_ok] using h.symm
              refine schedinv_updateTaskRow hinv hmem rfl rfl
                (fun hc' => absurd hc' (by simp)) ?_
              intro u' hp
              exact absurd hp (by
                rw [activeTaskPred_false_of_disabled rfl]
                simp)
    · -- no scheduling field changed
      rw [except_pure_eq_ok, except_bind_ok] at h
      dsimp only at h
      cases henb : upd.enabled with
      | none =>
        rw [henb] at h
        dsimp only at h
        obtain rfl : db' = updateTaskRow db _ := by
          simpa [except_pure_eq_ok] using h.symm
        refine schedinv_updateTaskRow hinv hmem rfl rfl ?_ ?_
        · intro he
          exact hinv.2.1 task hmem he
        · intro u' hp
          refine Or.inr ?_
          rw [← hp]
          exact (activeTaskPred_congr rfl rfl rfl).symm
      | some b =>
        rw [henb] at h
        cases b with
        | true =>
          dsimp only at h
          refine update_enable_branch_preserves hinv hmem ?_ ?_ ?_ huid h <;>
            rfl
        | false =>
          dsimp only at h
          obtain rfl : db' = updateTaskRow db _ := by
            simpa [except_pure_eq_ok] using h.symm
          refine schedinv_updateTaskRow hinv hmem rfl rfl
            (fun hc' => absurd hc' (by simp)) ?_
          intro u' hp
          exact absurd hp (by
            rw [activeTaskPred_false_of_disabled rfl]
            simp)

/-- `update_task` sending only `enabled=True` for a disabled task raises
`SchedulerException` when ten other enabled ACTIVE/PENDING tasks exist. -/
lemma update_task_rejected {db : List ScheduledTask} {tid u : Nat}
    {now : PyDateTime} {task : ScheduledTask}
    (hfind : getUserTask db tid u = some task) (hdis : task.enabled = false)
    (hcnt : MAX_TASKS_PER_USER ≤ countActiveTasks db u (some task.id)) :
    ∃ m, update_task db tid u ⟨none, none, none, some true⟩ now =
      .error (.schedulerException m) := by
  have heq : update_task db tid u ⟨none, none, none, some true⟩ now =
      (enable_task db task u false false false task.enabled now >>=
        fun t' => pure (updateTaskRow db t')) := by
    unfold update_task
    rw [hfind]
    rfl
  rw [heq, hdis]
  obtain ⟨m, hm⟩ := @enable_task_rejected db task u false false false now hcnt
  exact ⟨m, by rw [hm, except_bind_err]⟩

/-- **C6**: the per-user cap of 10 enabled ACTIVE/PENDING tasks: creating
when the user already has 10 raises `SchedulerException`; enabling a
disabled task (via `toggle_task` or `update_task`) when 10 others are
enabled raises `SchedulerException` (the task itself being excluded from
its own count); and every operation preserves the invariant that no user
ever exceeds 10. -/
theorem claim_C6_per_user_cap :
    (∀ (db : List ScheduledTask) (u : Nat) (td : ScheduledTaskBase)
        (newId : Nat) (now : PyDateTime),
      MAX_TASKS_PER_USER ≤ countActiveTasks db u none →
      ∃ m, create_task db u td newId now = .error (.schedulerException m)) ∧
    (∀ (db : List ScheduledTask) (tid u : Nat) (now : PyDateTime)
        (task : ScheduledTask),
      getUserTask db tid u = some task → task.enabled = false →
      MAX_TASKS_PER_USER ≤ countActiveTasks db u (some task.id) →
      ∃ m, toggle_task db tid u now = .error (.schedulerException m)) ∧
    (∀ (db : List ScheduledTask) (tid u : Nat) (now : PyDateTime)
        (task : ScheduledTask),
      getUserTask db tid u = some task → task.enabled = false →
      MAX_TASKS_PER_USER ≤ countActiveTasks db u (some task.id) →
      ∃ m, update_task db tid u ⟨none, none, none, some true⟩ now =
        .error (.schedulerException m)) ∧
    (∀ (db : List ScheduledTask) (u : Nat) (td : ScheduledTaskBase)
        (newId : Nat) (now : PyDateTime) (db' : List ScheduledTask),
      SchedInv db → newId ∉ db.map ScheduledTask.id →
      create_task db u td newId now = .ok db' → SchedInv db') ∧
    (∀ (db : List ScheduledTask) (tid u : Nat) (upd : ScheduledTaskUpdate)
        (now : PyDateTime) (db' : List ScheduledTask),
      SchedInv db → update_task db tid u upd now = .ok db' → SchedInv db') ∧
    (∀ (db : List ScheduledTask) (tid u : Nat) (now : PyDateTime)
        (db' : List ScheduledTask),
      SchedInv db → toggle_task db tid u now = .ok db' → SchedInv db') :=
  ⟨fun _ _ _ _ _ h => ⟨_, create_task_rejected h⟩,
    fun _ _ _ _ _ hf hd hc => toggle_task_rejected hf hd hc,
    fun _ _ _ _ _ hf hd hc => update_task_rejected hf hd hc,
    fun _ _ _ _ _ _ hinv hfresh h => create_task_preserves hinv hfresh h,
    fun _ _ _ _ _ _ hinv h => update_task_preserves hinv h,
    fun _ _ _ _ _ hinv h => toggle_task_preserves hinv h⟩

/-- A user-0 task used by the C6 witness. -/
def sampleTask (i : Nat) : ScheduledTask :=
  { id := i, user_id := 0, recurrence_type := .daily,
    scheduled_time := "09:00:00", scheduled_day := none, enabled := true,
    status := .active, next_execution := none, last_error := none }

/-- Ten enabled ACTIVE tasks of user 0. -/
def sampleDb : List ScheduledTask := (List.range 10).map sampleTask

/-- An eleventh, disabled task of user 0. -/
def sampleDisabled : ScheduledTask :=
  { id := 10, user_id := 0, recurrence_type := .daily,
    scheduled_time := "09:00:00", scheduled_day := none, enabled := false,
    status := .paused, next_execution := none, last_error := none }

/-- Witness for C6 at concrete inputs: with 10 enabled tasks the 11th create
is rejected, enabling the disabled 11th task is rejected by both paths, and
the preservation conjuncts hold on small concrete runs. -/
theorem claim_C6_per_user_cap_witness :
    (MAX_TASKS_PER_USER ≤ countActiveTasks sampleDb 0 none ∧
      ∃ m, create_task sampleDb 0 ⟨.daily, "09:00:00", none⟩ 99
        ⟨2026, 3, 10, 12, 0, 0⟩ = .error (.schedulerException m)) ∧
    (∃ m, toggle_task (sampleDb ++ [sampleDisabled]) 10 0
      ⟨2026, 3, 10, 12, 0, 0⟩ = .error (.schedulerException m)) ∧
    (∃ m, update_task (sampleDb ++ [sampleDisabled]) 10 0
      ⟨none, none, none, some true⟩ ⟨2026, 3, 10, 12, 0, 0⟩ =
        .error (.schedulerException m)) ∧
    (∀ db', create_task [] 0 ⟨.daily, "09:00:00", none⟩ 1
        ⟨2026, 3, 10, 12, 0, 0⟩ = .ok db' → SchedInv db') ∧
    (∀ db', update_task [sampleTask 0] 0 0 ⟨none, none, none, some false⟩
        ⟨2026, 3, 10, 12, 0, 0⟩ = .ok db' → SchedInv db') ∧
    (∀ db', toggle_task [sampleTask 0] 0 0 ⟨2026, 3, 10, 12, 0, 0⟩ =
        .ok db' → SchedInv db') := by
  have hnil : SchedInv ([] : List ScheduledTask) := by
    refine ⟨fun u => ?_, fun t ht => absurd ht (List.not_mem_nil t), by simp⟩
    unfold countActiveTasks
    simp
  have hone : SchedInv [sampleTask 0] := by
    refine ⟨fun u => ?_, ?_, by simp⟩
    · unfold countActiveTasks MAX_TASKS_PER_USER
      rw [List.countP_cons, List.countP_nil]
      split <;> omega
    · intro t ht he
      simp only [List.mem_singleton] at ht
      subst ht
      exact Or.inl rfl
  refine ⟨⟨by decide, claim_C6_per_user_cap.1 sampleDb 0 ⟨.daily, "09:00:00", none⟩
      99 ⟨2026, 3, 10, 12, 0, 0⟩ (by decide)⟩, ?_, ?_, ?_, ?_, ?_⟩
  · exact claim_C6_per_user_cap.2.1 (sampleDb ++ [sampleDisabled]) 10 0
      ⟨2026, 3, 10, 12, 0, 0⟩ sampleDisabled (by decide) (by decide) (by decide)
  · exact claim_C6_per_user_cap.2.2.1 (sampleDb ++ [sampleDisabled]) 10 0
      ⟨2026, 3, 10, 12, 0, 0⟩ sampleDisabled (by decide) (by decide) (by decide)
  · exact fun db' h => claim_C6_per_user_cap.2.2.2.1 [] 0
      ⟨.daily, "09:00:00", none⟩ 1 ⟨2026, 3, 10, 12, 0, 0⟩ db' hnil
      (by simp) h
  · exact fun db' h => claim_C6_per_user_cap.2.2.2.2.1 [sampleTask 0] 0 0
      ⟨none, none, none, some false⟩ ⟨2026, 3, 10, 12, 0, 0⟩ db' hone h
  · exact fun db' h => claim_C6_per_user_cap.2.2.2.2.2 [sampleTask 0] 0 0
      ⟨2026, 3, 10, 12, 0, 0⟩ db' hone h

/-! ## Stream orchestrator
(`app/services/streaming/orchestrator.py`, with the legacy duplicate in
`app/tasks/chat_streaming.py` for the refinement claim).

The asynchronous run is embedded as a function of an input record that fixes
the scheduling-dependent data of one stream: the events the provider
actually yielded, how the iterator terminated, and whether the revocation
watcher observed the flag (spec §5: single-threaded cooperative execution,
cancellation delivered only at await points, so the watcher's
`was_cancelled := True; cancel_stream(...)` prefix runs atomically). -/

/-- `MessageStreamStatus` enum of `app/models/db_models.py`. -/
inductive StreamStatus where
  | in_progress
  | completed
  | interrupted
  | failed
  deriving DecidableEq, Repr

/-- The assistant `Message` columns the orchestrator writes. -/
structure MessageRec where
  content : String
  stream_status : StreamStatus
  total_cost_usd : Option Rat
  checkpoint_id : Option String
  deriving DecidableEq, Repr

/-- One appended entry of the per-chat shared log (spec §4.8: `kind` plus
payload; `publisher.py` is not under `src/` and is modelled from the spec:
`publish_event` appends `content`, `publish_error` appends `error`,
`publish_complete` appends `complete`). -/
inductive LogEntry where
  | content (e : StreamEvent)
  | error (msg : String)
  | complete
  | queue_injected
  deriving DecidableEq, Repr

/-- `json.dumps(events, ensure_ascii=False)` for our restricted event
shape. -/
def dumpEvent (e : StreamEvent) : String :=
  "\x7b\"type\": \"" ++ e.ty ++ "\"" ++
    (match e.tool with
      | none => ""
      | some t =>
        ", \"tool\": \x7b\"name\": \"" ++ t.name ++ "\", \"parent_id\": " ++
          (match t.parent_id with
            | none => "null"
            | some p => "\"" ++ p ++ "\"") ++ "\x7d") ++ "\x7d"

/-- `json.dumps` of the whole events list. -/
def dumpEvents (events : List StreamEvent) : String :=
  "[" ++ String.intercalate ", " (events.map dumpEvent) ++ "]"

/-- The shared flags of `CancellationHandler` plus an instrumentation
counter of `provider.cancel_active_stream()` invocations. -/
structure CancelState where
  was_cancelled : Bool
  cancel_requested : Bool
  providerCancelCalls : Nat
  deriving DecidableEq, Repr

/-- `CancellationHandler.cancel_stream`: latched by `cancel_requested`;
calls the provider's `cancel_active_stream` only on the first invocation. -/
def cancelStreamLatched (c : CancelState) : CancelState :=
  if c.cancel_requested then c
  else
    { c with
        cancel_requested := true,
        providerCancelCalls := c.providerCancelCalls + 1 }

/-- The watcher body after `wait_for_revocation` returns
(`CancellationHandler._monitor_revocation`): set `was_cancelled`, then
`cancel_stream` — an atomic prefix in the cooperative runtime. -/
def monitorFire (c : CancelState) : CancelState :=
  cancelStreamLatched { c with was_cancelled := true }

/-- How the provider loop of one run terminates: normal exhaustion; an
`asyncio.CancelledError` delivered at the `__anext__` await (the only
await the loop wraps in `except asyncio.CancelledError`); an
`asyncio.CancelledError` delivered at the `publish_event` await of the
loop body, after event `e` was yielded and appended to the buffer — the
other suspension point of the loop, outside the inner `try`; or an
ordinary exception raised with message `msg`. -/
inductive ProviderTerm where
  | stop
  | cancelled
  | cancelledAtPublish (e : StreamEvent)
  | raised (msg : String)
  deriving DecidableEq, Repr

/-- Whether the run ends with a `CancelledError` landing at the publish
await. -/
def ProviderTerm.atPublish : ProviderTerm → Bool
  | .cancelledAtPublish _ => true
  | _ => false

/-- The scheduling-independent data of one stream run. -/
structure StreamInput where
  yielded : List StreamEvent
  term : ProviderTerm
  monitorFired : Bool
  assistant_message_id : Option String
  db0 : List (String × MessageRec)
  totalCost : Rat
  hasSandbox : Bool
  checkpointResult : Option String
  deriving DecidableEq, Repr

/-- The observable state threaded through a run: the in-memory `events`
buffer, the published log, the message table, the cancellation flags, and a
counter of `in_progress → terminal` transitions of message rows. -/
structure OrchState where
  events : List StreamEvent
  log : List LogEntry
  db : List (String × MessageRec)
  cancel : CancelState
  statusTransitions : Nat
  deriving DecidableEq, Repr

/-- Exceptions escaping `_process_stream_events`. -/
inductive LoopExc where
  | cancelledError
  | exc (msg : String)
  deriving DecidableEq, Repr

/-- How `process_stream` (resp. `_drain_ai_stream`) returns to its caller:
a `StreamOutcome`, a `StreamCancelled`, a re-raised ordinary exception
after FAILED finalization, or a propagating `asyncio.CancelledError`. -/
inductive ProcResult where
  | ok (events : List StreamEvent) (final_content : String) (total_cost : Rat)
  | streamCancelled (final_content : String)
  | raised (msg : String)
  | cancelledError
  deriving DecidableEq, Repr

/-- Python truthiness of the `assistant_message_id` value
(`None` and `""` are falsy). -/
def truthyId (mid : Option String) : Bool :=
  match mid with
  | none => false
  | some s => !(s == "")

/-- First message row with this id. -/
def lookupMessage (db : List (String × MessageRec)) (mid : String) :
    Option MessageRec :=
  (db.find? fun p => p.1 == mid).map Prod.snd

/-- Rewrite of the rows with this id. -/
def mapMessage (db : List (String × MessageRec)) (mid : String)
    (f : MessageRec → MessageRec) : List (String × MessageRec) :=
  db.map fun p => if p.1 == mid then (p.1, f p.2) else p

/-- `1` when this DB write moves the row out of `in_progress`. -/
def transitionDelta (old : MessageRec) (st : StreamStatus) : Nat :=
  if old.stream_status = .in_progress ∧ st ≠ .in_progress then 1 else 0

/-- `StreamOrchestrator._update_message_status`: skip on a falsy id; load
the message; if present, set `stream_status` and commit (DB errors are
swallowed; the store is modelled as reliable). -/
def updateMessageStatus (s : OrchState) (mid : Option String)
    (st : StreamStatus) : OrchState :=
  match mid with
  | none => s
  | some m =>
    if m == "" then s
    else
      match lookupMessage s.db m with
      | none => s
      | some old =>
        { s with
            db := mapMessage s.db m (fun r => { r with stream_status := st }),
            statusTransitions := s.statusTransitions + transitionDelta old st }

/-- `StreamOrchestrator._save_message_content`: skip on a falsy id or empty
events; else set `content = json.dumps(events)`, `total_cost_usd`, and
`stream_status`. -/
def saveMessageContent (s : OrchState) (mid : Option String)
    (events : List StreamEvent) (totalCost : Rat) (st : StreamStatus) :
    OrchState :=
  if !truthyId mid || events.isEmpty then s
  else
    match mid with
    | none => s
    | some m =>
      match lookupMessage s.db m with
      | none => s
      | some old =>
        { s with
            db := mapMessage s.db m (fun r =>
              { r with
                  content := dumpEvents events,
                  total_cost_usd := some totalCost,
                  stream_status := st }),
            statusTransitions := s.statusTransitions + transitionDelta old st }

/-- `StreamPublisher.publish_event` (modelled from the spec, §4.8). -/
def publishEvent (s : OrchState) (e : StreamEvent) : OrchState :=
  { s with log := s.log ++ [.content e] }

/-- `StreamPublisher.publish_error` (modelled from the spec, §4.8). -/
def publishError (s : OrchState) (msg : String) : OrchState :=
  { s with log := s.log ++ [.error msg] }

/-- `StreamPublisher.publish_complete` (modelled from the spec, §4.8). -/
def publishComplete (s : OrchState) : OrchState :=
  { s with log := s.log ++ [.complete] }

/-- The main loop body applied to each yielded event: deep-copy and append
to the buffer, publish under kind `content` (the `task.update_state`
progress metadata is external and unmodelled). -/
def publishAll (s : OrchState) (events : List StreamEvent) : OrchState :=
  events.foldl (fun s e =>
    publishEvent { s with events := s.events ++ [e] } e) s

/-- `StreamOrchestrator._process_stream_events`: spawn the watcher (applied
up front when it fires during this run), drain the iterator, and translate
its termination: `StopAsyncIteration` breaks; a `CancelledError` at the
`__anext__` await with `was_cancelled` runs the latched `cancel_stream`
and breaks, without the flag it re-raises; a `CancelledError` at the
`publish_event` await propagates unconditionally (the `except
asyncio.CancelledError` arm wraps only `__anext__`), with the interrupted
event already appended to the buffer but its log entry unwritten; other
exceptions propagate. -/
def processStreamEvents (inp : StreamInput) (s0 : OrchState) :
    OrchState × Option LoopExc :=
  let sM := if inp.monitorFired then { s0 with cancel := monitorFire s0.cancel } else s0
  let s2 := publishAll sM inp.yielded
  match inp.term with
  | .stop => (s2, none)
  | .cancelled =>
    if s2.cancel.was_cancelled then
      ({ s2 with cancel := cancelStreamLatched s2.cancel }, none)
    else
      (s2, some .cancelledError)
  | .cancelledAtPublish e =>
    ({ s2 with events := s2.events ++ [e] }, some .cancelledError)
  | .raised m => (s2, some (.exc m))

/-- `StreamOrchestrator._create_checkpoint_if_needed`: only with a sandbox
and a truthy id, and only when the sandbox returns a checkpoint id, store
it on the message. -/
def createCheckpointIfNeeded (inp : StreamInput) (s : OrchState) : OrchState :=
  if inp.hasSandbox && truthyId inp.assistant_message_id then
    match inp.checkpointResult with
    | none => s
    | some cid =>
      match inp.assistant_message_id with
      | none => s
      | some m =>
        { s with
            db := mapMessage s.db m (fun r => { r with checkpoint_id := some cid }) }
  else s

/-- `StreamOrchestrator._finalize_stream`: read the total cost, serialize
the buffer, publish the `complete` marker, persist content when the id is
truthy and events exist, and checkpoint on COMPLETED. -/
def finalizeStream (inp : StreamInput) (s : OrchState) (st : StreamStatus) :
    OrchState × (List StreamEvent × String × Rat) :=
  let totalCost := inp.totalCost
  let finalContent := dumpEvents s.events
  let s1 := publishComplete s
  let s2 := if truthyId inp.assistant_message_id && !s.events.isEmpty then
      saveMessageContent s1 inp.assistant_message_id s.events totalCost st
    else s1
  let s3 := if st = .completed then createCheckpointIfNeeded inp s2 else s2
  (s3, (s.events, finalContent, totalCost))

/-- The `except Exception` arm of `process_stream` (lines 89-108): publish
the `error` marker, mark the message FAILED, persist emitted events, and
re-raise. -/
def failStream (inp : StreamInput) (s : OrchState) (msg : String) :
    OrchState × ProcResult :=
  let s1 := publishError s msg
  let s2 := updateMessageStatus s1 inp.assistant_message_id .failed
  let s3 := if truthyId inp.assistant_message_id && !s.events.isEmpty then
      saveMessageContent s2 inp.assistant_message_id s.events inp.totalCost .failed
    else s2
  (s3, .raised msg)

/-- `StreamOrchestrator.process_stream`: run the loop; on flag-based
cancellation call the provider cancel directly when the latch is unset
(without setting it), mark INTERRUPTED, finalize and raise
`StreamCancelled`; an empty completed stream raises
`ClaudeAgentException`, caught by the failure arm; a normal completion
finalizes COMPLETED; a `CancelledError` without the flag propagates — it is
not an `Exception`, so the failure arm does not run. -/
def process_stream (inp : StreamInput) : OrchState × ProcResult :=
  let s0 : OrchState :=
    { events := [], log := [], db := inp.db0,
      cancel := ⟨false, false, 0⟩, statusTransitions := 0 }
  let r := processStreamEvents inp s0
  match r.2 with
  | some .cancelledError => (r.1, .cancelledError)
  | some (.exc m) => failStream inp r.1 m
  | none =>
    let s1 := r.1
    if s1.cancel.was_cancelled then
      let s2 := if !s1.cancel.cancel_requested then
          { s1 with
              cancel :=
                { s1.cancel with
                    providerCancelCalls := s1.cancel.providerCancelCalls + 1 } }
        else s1
      let s3 := updateMessageStatus s2 inp.assistant_message_id .interrupted
      let r4 := finalizeStream inp s3 .interrupted
      (r4.1, .streamCancelled r4.2.2.1)
    else if s1.events.isEmpty then
      failStream inp s1 "Stream completed without any events"
    else
      let r4 := finalizeStream inp s1 .completed
      (r4.1, .ok r4.2.1 r4.2.2.1 r4.2.2.2)

/-! ### Legacy duplicate (`app/tasks/chat_streaming.py`) -/

/-- `_publish_stream_entry(redis, chat_id, "content", {"event": event})`. -/
def legacyPublishContent (s : OrchState) (e : StreamEvent) : OrchState :=
  { s with log := s.log ++ [.content e] }

/-- `_publish_stream_entry(redis, chat_id, "error", {"error": msg})`. -/
def legacyPublishError (s : OrchState) (msg : String) : OrchState :=
  { s with log := s.log ++ [.error msg] }

/-- `_publish_stream_entry(redis, chat_id, "complete")`. -/
def legacyPublishComplete (s : OrchState) : OrchState :=
  { s with log := s.log ++ [.complete] }

/-- `_update_message_status` of `chat_streaming.py` (string id, falsy
check `if not assistant_message_id`). -/
def legacyUpdateMessageStatus (s : OrchState) (assistantMessageId : String)
    (st : StreamStatus) : OrchState :=
  if assistantMessageId == "" then s
  else
    match lookupMessage s.db assistantMessageId with
    | none => s
    | some old =>
      { s with
          db := mapMessage s.db assistantMessageId
            (fun r => { r with stream_status := st }),
          statusTransitions := s.statusTransitions + transitionDelta old st }

/-- `_save_message_content` of `chat_streaming.py`. -/
def legacySaveMessageContent (s : OrchState) (assistantMessageId : String)
    (events : List StreamEvent) (totalCost : Rat) (st : StreamStatus) :
    OrchState :=
  if assistantMessageId == "" || events.isEmpty then s
  else
    match lookupMessage s.db assistantMessageId with
    | none => s
    | some old =>
      { s with
          db := mapMessage s.db assistantMessageId (fun r =>
            { r with
                content := dumpEvents events,
                total_cost_usd := some totalCost,
                stream_status := st }),
          statusTransitions := s.statusTransitions + transitionDelta old st }

/-- `_cancel_stream_safely` of `chat_streaming.py`
(`if not ctx.cancel_requested: ...`). -/
def legacyCancelStreamSafely (c : CancelState) : CancelState :=
  if !c.cancel_requested then
    { c with
        cancel_requested := true,
        providerCancelCalls := c.providerCancelCalls + 1 }
  else c

/-- `_monitor_revocation` body after the revocation flag is observed. -/
def legacyMonitorFire (c : CancelState) : CancelState :=
  legacyCancelStreamSafely { c with was_cancelled := true }

/-- `_process_stream_events` of `chat_streaming.py`. -/
def legacyProcessStreamEvents (inp : StreamInput) (s0 : OrchState) :
    OrchState × Option LoopExc :=
  let sM := if inp.monitorFired then { s0 with cancel := legacyMonitorFire s0.cancel } else s0
  let s2 := inp.yielded.foldl (fun s e =>
    legacyPublishContent { s with events := s.events ++ [e] } e) sM
  match inp.term with
  | .stop => (s2, none)
  | .cancelled =>
    if s2.cancel.was_cancelled then
      ({ s2 with cancel := legacyCancelStreamSafely s2.cancel }, none)
    else
      (s2, some .cancelledError)
  | .cancelledAtPublish e =>
    ({ s2 with events := s2.events ++ [e] }, some .cancelledError)
  | .raised m => (s2, some (.exc m))

/-- `_create_checkpoint_if_needed` of `chat_streaming.py`. -/
def legacyCreateCheckpointIfNeeded (inp : StreamInput) (s : OrchState) :
    OrchState :=
  if inp.hasSandbox && truthyId inp.assistant_message_id then
    match inp.checkpointResult with
    | none => s
    | some cid =>
      match inp.assistant_message_id with
      | none => s
      | some m =>
        { s with
            db := mapMessage s.db m (fun r => { r with checkpoint_id := some cid }) }
  else s

/-- `_finalize_stream` of `chat_streaming.py`. -/
def legacyFinalizeStream (inp : StreamInput) (s : OrchState)
    (st : StreamStatus) : OrchState × (List StreamEvent × String × Rat) :=
  let totalCost := inp.totalCost
  let finalContent := dumpEvents s.events
  let s1 := legacyPublishComplete s
  let s2 := if truthyId inp.assistant_message_id && !s.events.isEmpty then
      legacySaveMessageContent s1 (inp.assistant_message_id.getD "")
        s.events totalCost st
    else s1
  let s3 := if st = .completed then legacyCreateCheckpointIfNeeded inp s2 else s2
  (s3, (s.events, finalContent, totalCost))

/-- The `except Exception` arm of `_drain_ai_stream` (lines 468-484). -/
def legacyFailStream (inp : StreamInput) (s : OrchState) (msg : String) :
    OrchState × ProcResult :=
  let s1 := legacyPublishError s msg
  let s2 := legacyUpdateMessageStatus s1 (inp.assistant_message_id.getD "")
    .failed
  let s3 := if truthyId inp.assistant_message_id && !s.events.isEmpty then
      legacySaveMessageContent s2 (inp.assistant_message_id.getD "")
        s.events inp.totalCost .failed
    else s2
  (s3, .raised msg)

/-- `_drain_ai_stream` of `app/tasks/chat_streaming.py` (lines 423-485):
the pre-refactor copy of the orchestrator's `process_stream`, with
`_update_message_status(assistant_message_id or "", ...)`. -/
def drain_ai_stream (inp : StreamInput) : OrchState × ProcResult :=
  let s0 : OrchState :=
    { events := [], log := [], db := inp.db0,
      cancel := ⟨false, false, 0⟩, statusTransitions := 0 }
  let r := legacyProcessStreamEvents inp s0
  match r.2 with
  | some .cancelledError => (r.1, .cancelledError)
  | some (.exc m) => legacyFailStream inp r.1 m
  | none =>
    let s1 := r.1
    if s1.cancel.was_cancelled then
      let s2 := if !s1.cancel.cancel_requested then
          { s1 with
              cancel :=
                { s1.cancel with
                    providerCancelCalls := s1.cancel.providerCancelCalls + 1 } }
        else s1
      let s3 := legacyUpdateMessageStatus s2 (inp.assistant_message_id.getD "")
        .interrupted
      let r4 := legacyFinalizeStream inp s3 .interrupted
      (r4.1, .streamCancelled r4.2.2.1)
    else if s1.events.isEmpty then
      legacyFailStream inp s1 "Stream completed without any events"
    else
      let r4 := legacyFinalizeStream inp s1 .completed
      (r4.1, .ok r4.2.1 r4.2.2.1 r4.2.2.2)

/-! ### Facts about the orchestrator model -/

lemma lookupMessage_mapMessage_self (db : List (String × MessageRec))
    (m : String) (f : MessageRec → MessageRec) :
    lookupMessage (mapMessage db m f) m = (lookupMessage db m).map f := by
  induction db with
  | nil => rfl
  | cons p l ih =>
    unfold mapMessage lookupMessage at ih ⊢
    simp only [List.map_cons]
    by_cases hb : (p.1 == m) = true
    · rw [if_pos hb]
      simp only [List.find?_cons, hb]
      rfl
    · rw [if_neg hb]
      simp only [List.find?_cons, hb]
      exact ih

lemma publishAll_spec (l : List StreamEvent) (s : OrchState) :
    (publishAll s l).db = s.db ∧
    (publishAll s l).statusTransitions = s.statusTransitions ∧
    (publishAll s l).cancel = s.cancel ∧
    (publishAll s l).events = s.events ++ l := by
  induction l generalizing s with
  | nil => simp [publishAll]
  | cons e rest ih =>
    unfold publishAll at ih ⊢
    rw [List.foldl_cons]
    have := ih (publishEvent { s with events := s.events ++ [e] } e)
    simpa [publishEvent] using this

lemma updateMessageStatus_cancel (s : OrchState) (mid : Option String)
    (st : StreamStatus) : (updateMessageStatus s mid st).cancel = s.cancel := by
  unfold updateMessageStatus
  cases mid with
  | none => rfl
  | some m =>
    dsimp only
    split
    · rfl
    · split <;> rfl

lemma saveMessageContent_cancel (s : OrchState) (mid : Option String)
    (events : List StreamEvent) (cost : Rat) (st : StreamStatus) :
    (saveMessageContent s mid events cost st).cancel = s.cancel := by
  unfold saveMessageContent
  split
  · rfl
  · cases mid with
    | none => rfl
    | some m =>
      dsimp only
      split <;> rfl

lemma createCheckpointIfNeeded_cancel (inp : StreamInput) (s : OrchState) :
    (createCheckpointIfNeeded inp s).cancel = s.cancel := by
  unfold createCheckpointIfNeeded
  split
  · cases inp.checkpointResult with
    | none => rfl
    | some cid =>
      dsimp only
      cases inp.assistant_message_id <;> rfl
  · rfl

lemma finalizeStream_cancel (inp : StreamInput) (s : OrchState)
    (st : StreamStatus) : (finalizeStream inp s st).1.cancel = s.cancel := by
  unfold finalizeStream
  dsimp only
  have hx : (if truthyId inp.assistant_message_id && !s.events.isEmpty then
      saveMessageContent (publishComplete s) inp.assistant_message_id
        s.events inp.totalCost st
    else publishComplete s).cancel = s.cancel := by
    split
    · rw [saveMessageContent_cancel]; rfl
    · rfl
  split
  · rw [createCheckpointIfNeeded_cancel]; exact hx
  · exact hx

lemma failStream_cancel (inp : StreamInput) (s : OrchState) (msg : String) :
    (failStream inp s msg).1.cancel = s.cancel := by
  unfold failStream
  dsimp only
  split
  · rw [saveMessageContent_cancel, updateMessageStatus_cancel]; rfl
  · rw [updateMessageStatus_cancel]; rfl

lemma processStreamEvents_spec (inp : StreamInput) (s0 : OrchState)
    (hterm : inp.term.atPublish = false) :
    (processStreamEvents inp s0).1.db = s0.db ∧
    (processStreamEvents inp s0).1.statusTransitions = s0.statusTransitions ∧
    (processStreamEvents inp s0).1.events = s0.events ++ inp.yielded := by
  unfold processStreamEvents
  dsimp only
  obtain ⟨hdb, htr, hc, hev⟩ := publishAll_spec inp.yielded
    (if inp.monitorFired then { s0 with cancel := monitorFire s0.cancel } else s0)
  have hdb' : (if inp.monitorFired then
      { s0 with cancel := monitorFire s0.cancel } else s0).db = s0.db := by
    split <;> rfl
  have htr' : (if inp.monitorFired then
      { s0 with cancel := monitorFire s0.cancel } else s0).statusTransitions =
      s0.statusTransitions := by
    split <;> rfl
  have hev' : (if inp.monitorFired then
      { s0 with cancel := monitorFire s0.cancel } else s0).events = s0.events := by
    split <;> rfl
  cases ht : inp.term with
  | stop =>
    exact ⟨by rw [hdb, hdb'], by rw [htr, htr'], by rw [hev, hev']⟩
  | cancelled =>
    dsimp only
    set s2 := publishAll
      (if inp.monitorFired = true then
        { s0 with cancel := monitorFire s0.cancel } else s0)
      inp.yielded with hs2
    refine ⟨?_, ?_, ?_⟩ <;> (split <;> (try dsimp only)) <;>
      first
        | rfl
        | rw [hdb, hdb']
        | rw [htr, htr']
        | rw [hev, hev']
  | cancelledAtPublish e =>
    exact absurd hterm (by rw [ht]; simp [ProviderTerm.atPublish])
  | raised m =>
    exact ⟨by rw [hdb, hdb'], by rw [htr, htr'], by rw [hev, hev']⟩

lemma processStreamEvents_cancel (inp : StreamInput) (s0 : OrchState)
    (h0 : s0.cancel = ⟨false, false, 0⟩) :
    (inp.monitorFired = true →
      (processStreamEvents inp s0).1.cancel = ⟨true, true, 1⟩) ∧
    (inp.monitorFired = false →
      (processStreamEvents inp s0).1.cancel = ⟨false, false, 0⟩) := by
  constructor
  · intro hm
    unfold processStreamEvents
    dsimp only
    rw [hm]
    simp only [if_true]
    obtain ⟨-, -, hc, -⟩ := publishAll_spec inp.yielded
      { s0 with cancel := monitorFire s0.cancel }
    have hc1 : (publishAll { s0 with cancel := monitorFire s0.cancel }
        inp.yielded).cancel = ⟨true, true, 1⟩ := by
      rw [hc]
      show monitorFire s0.cancel = _
      rw [h0]
      rfl
    cases inp.term with
    | stop => exact hc1
    | cancelled =>
      dsimp only
      rw [hc1]
      rw [if_pos (by rfl)]
      rfl
    | cancelledAtPublish e =>
      dsimp only
      exact hc1
    | raised m => exact hc1
  · intro hm
    unfold processStreamEvents
    dsimp only
    rw [hm]
    simp only [Bool.false_eq_true, if_false]
    obtain ⟨-, -, hc, -⟩ := publishAll_spec inp.yielded s0
    have hc1 : (publishAll s0 inp.yielded).cancel = ⟨false, false, 0⟩ := by
      rw [hc, h0]
    cases inp.term with
    | stop => exact hc1
    | cancelled =>
      dsimp only
      rw [hc1]
      rw [if_neg (by simp)]
      exact hc1
    | cancelledAtPublish e =>
      dsimp only
      exact hc1
    | raised m => exact hc1

lemma updateMessageStatus_found (s : OrchState) (mid : String)
    (st : StreamStatus) (rec : MessageRec)
    (hmid : (mid == "") = false)
    (hlk : lookupMessage s.db mid = some rec) :
    updateMessageStatus s (some mid) st =
      { s with
          db := mapMessage s.db mid (fun r => { r with stream_status := st }),
          statusTransitions := s.statusTransitions + transitionDelta rec st } := by
  unfold updateMessageStatus
  dsimp only
  rw [hmid]
  simp only [Bool.false_eq_true, if_false]
  rw [hlk]

lemma saveMessageContent_found (s : OrchState) (mid : String)
    (events : List StreamEvent) (cost : Rat) (st : StreamStatus)
    (rec : MessageRec)
    (hmid : (mid == "") = false)
    (hne : events.isEmpty = false)
    (hlk : lookupMessage s.db mid = some rec) :
    saveMessageContent s (some mid) events cost st =
      { s with
          db := mapMessage s.db mid (fun r =>
            { r with
                content := dumpEvents events,
                total_cost_usd := some cost,
                stream_status := st }),
          statusTransitions := s.statusTransitions + transitionDelta rec st } := by
  unfold saveMessageContent truthyId
  dsimp only
  rw [hmid, hne]
  simp only [Bool.not_false, Bool.not_true, Bool.or_false, Bool.false_eq_true,
    if_false]
  rw [hlk]

lemma createCheckpointIfNeeded_found (inp : StreamInput) (s : OrchState)
    (mid : String) (rec : MessageRec)
    (hid : inp.assistant_message_id = some mid)
    (hlk : lookupMessage s.db mid = some rec) :
    (createCheckpointIfNeeded inp s).statusTransitions = s.statusTransitions ∧
    ∃ rec2, lookupMessage (createCheckpointIfNeeded inp s).db mid = some rec2 ∧
      rec2.stream_status = rec.stream_status ∧ rec2.content = rec.content := by
  unfold createCheckpointIfNeeded
  split
  · cases inp.checkpointResult with
    | none => exact ⟨rfl, rec, hlk, rfl, rfl⟩
    | some cid =>
      dsimp only
      rw [hid]
      dsimp only
      refine ⟨rfl, { rec with checkpoint_id := some cid }, ?_, rfl, rfl⟩
      rw [lookupMessage_mapMessage_self, hlk]
      rfl
  · exact ⟨rfl, rec, hlk, rfl, rfl⟩

lemma processStreamEvents_snd (inp : StreamInput) (s0 : OrchState)
    (h0 : s0.cancel = ⟨false, false, 0⟩) :
    (processStreamEvents inp s0).2 =
      (match inp.term with
        | .stop => none
        | .cancelled =>
          if inp.monitorFired then none else some LoopExc.cancelledError
        | .cancelledAtPublish _ => some LoopExc.cancelledError
        | .raised m => some (LoopExc.exc m)) := by
  obtain ⟨hct, hcf⟩ := processStreamEvents_cancel inp s0 h0
  unfold processStreamEvents
  dsimp only
  cases inp.term with
  | stop => rfl
  | cancelled =>
    dsimp only
    obtain ⟨-, -, hc, -⟩ := publishAll_spec inp.yielded
      (if inp.monitorFired then { s0 with cancel := monitorFire s0.cancel }
        else s0)
    cases hm : inp.monitorFired with
    | true =>
      rw [hm] at hc
      simp only [if_true] at hc ⊢
      have hw : (publishAll { s0 with cancel := monitorFire s0.cancel }
          inp.yielded).cancel.was_cancelled = true := by
        rw [hc]
        show (monitorFire s0.cancel).was_cancelled = true
        unfold monitorFire cancelStreamLatched
        split <;> rfl
      rw [if_pos hw]
    | false =>
      rw [hm] at hc
      simp only [Bool.false_eq_true, if_false] at hc ⊢
      have hw : (publishAll s0 inp.yielded).cancel.was_cancelled = false := by
        rw [hc, h0]
      rw [if_neg (by rw [hw]; exact Bool.false_ne_true)]
  | cancelledAtPublish e => rfl
  | raised m => rfl


lemma failStream_found (inp : StreamInput) (s : OrchState) (msg : String)
    (mid : String) (rec : MessageRec)
    (hid : inp.assistant_message_id = some mid)
    (hmid : (mid == "") = false)
    (hlk : lookupMessage s.db mid = some rec) :
    (failStream inp s msg).2 = ProcResult.raised msg ∧
    (failStream inp s msg).1.statusTransitions =
      s.statusTransitions + transitionDelta rec .failed ∧
    lookupMessage (failStream inp s msg).1.db mid =
      some (if s.events.isEmpty then { rec with stream_status := .failed }
        else { rec with
                 content := dumpEvents s.events,
                 total_cost_usd := some inp.totalCost,
                 stream_status := .failed }) := by
  unfold failStream updateMessageStatus saveMessageContent truthyId publishError
  rw [hid]
  dsimp only
  rw [hmid]
  simp only [Bool.false_eq_true, if_false, Bool.not_false, Bool.not_true,
    Bool.true_and, Bool.false_or]
  rw [hlk]
  dsimp only
  cases hE : s.events.isEmpty with
  | true =>
    simp only [Bool.not_true, Bool.false_eq_true, if_false, reduceIte,
      true_and]
    (try dsimp only)
    rw [lookupMessage_mapMessage_self, hlk]
    rfl
  | false =>
    simp only [Bool.not_false, Bool.or_false, Bool.false_eq_true, if_false,
      reduceIte, true_and]
    rw [lookupMessage_mapMessage_self, hlk]
    (try dsimp only [Option.map])
    refine ⟨?_, ?_⟩
    · dsimp only
      rw [show transitionDelta
          { rec with stream_status := StreamStatus.failed }
          StreamStatus.failed = 0 from rfl]
      omega
    · dsimp only
      rw [lookupMessage_mapMessage_self, lookupMessage_mapMessage_self, hlk]
      rfl


lemma finalizeStream_found (inp : StreamInput) (s : OrchState)
    (st : StreamStatus) (mid : String) (rec : MessageRec)
    (hid : inp.assistant_message_id = some mid)
    (hmid : (mid == "") = false)
    (hlk : lookupMessage s.db mid = some rec) :
    ∃ rec2, lookupMessage (finalizeStream inp s st).1.db mid = some rec2 ∧
      rec2.stream_status =
        (if s.events.isEmpty then rec.stream_status else st) ∧
      (finalizeStream inp s st).1.statusTransitions =
        s.statusTransitions +
          (if s.events.isEmpty then 0 else transitionDelta rec st) := by
  unfold finalizeStream publishComplete
  dsimp only
  rw [hid]
  have htru : truthyId (some mid) = true := by
    unfold truthyId; dsimp only; rw [hmid]; rfl
  rw [htru]
  simp only [Bool.true_and]
  cases hE : s.events.isEmpty with
  | true =>
    simp only [Bool.not_true, Bool.false_eq_true, if_false, reduceIte]
    split
    · obtain ⟨h1, rec2, h2, h3, h4⟩ := createCheckpointIfNeeded_found inp
        ⟨s.events, s.log ++ [LogEntry.complete], s.db, s.cancel,
          s.statusTransitions⟩ mid rec hid hlk
      refine ⟨rec2, h2, h3, ?_⟩
      rw [h1]
      dsimp only
      omega
    · exact ⟨rec, hlk, rfl, by dsimp only; omega⟩
  | false =>
    simp only [Bool.not_false, Bool.false_eq_true, if_false, reduceIte]
    rw [saveMessageContent_found
      ⟨s.events, s.log ++ [LogEntry.complete], s.db, s.cancel,
        s.statusTransitions⟩ mid s.events inp.totalCost st rec hmid hE hlk]
    have hlk2 : lookupMessage (mapMessage s.db mid (fun r =>
        { r with
            content := dumpEvents s.events,
            total_cost_usd := some inp.totalCost,
            stream_status := st })) mid =
        some { rec with
                 content := dumpEvents s.events,
                 total_cost_usd := some inp.totalCost,
                 stream_status := st } := by
      rw [lookupMessage_mapMessage_self, hlk]
      rfl
    split
    · obtain ⟨h1, rec2, h2, h3, h4⟩ := createCheckpointIfNeeded_found inp
        ⟨s.events, s.log ++ [LogEntry.complete],
          mapMessage s.db mid (fun r =>
            { r with
                content := dumpEvents s.events,
                total_cost_usd := some inp.totalCost,
                stream_status := st }),
          s.cancel, s.statusTransitions + transitionDelta rec st⟩
        mid _ hid hlk2
      exact ⟨rec2, h2, h3, by rw [h1]⟩
    · exact ⟨_, hlk2, rfl, rfl⟩


lemma process_stream_cancel (inp : StreamInput) :
    (process_stream inp).1.cancel = ⟨true, true, 1⟩ ∨
      (process_stream inp).1.cancel = ⟨false, false, 0⟩ := by
  unfold process_stream
  dsimp only
  obtain ⟨hmt, hmf⟩ := processStreamEvents_cancel inp
    { events := [], log := [], db := inp.db0,
      cancel := ⟨false, false, 0⟩, statusTransitions := 0 } rfl
  cases hm : inp.monitorFired with
  | true =>
    have hc := hmt hm
    split
    · exact Or.inl hc
    · rw [failStream_cancel, hc]
      exact Or.inl rfl
    · rw [hc]
      rw [if_pos rfl]
      rw [if_neg (by decide)]
      dsimp only
      rw [finalizeStream_cancel, updateMessageStatus_cancel, hc]
      exact Or.inl rfl
  | false =>
    have hc := hmf hm
    split
    · exact Or.inr hc
    · rw [failStream_cancel, hc]
      exact Or.inr rfl
    · rw [hc]
      rw [if_neg (by decide)]
      split
      · rw [failStream_cancel, hc]
        exact Or.inr rfl
      · dsimp only
        rw [finalizeStream_cancel, hc]
        exact Or.inr rfl


lemma interrupted_tail_found (inp : StreamInput) (s : OrchState)
    (mid : String) (rec : MessageRec)
    (hid : inp.assistant_message_id = some mid)
    (hmid : (mid == "") = false)
    (hlk : lookupMessage s.db mid = some rec) :
    (finalizeStream inp
        (updateMessageStatus s inp.assistant_message_id .interrupted)
        .interrupted).1.statusTransitions =
      s.statusTransitions + transitionDelta rec .interrupted ∧
    ∃ rec2, lookupMessage (finalizeStream inp
        (updateMessageStatus s inp.assistant_message_id .interrupted)
        .interrupted).1.db mid = some rec2 ∧
      rec2.stream_status = .interrupted := by
  rw [hid, updateMessageStatus_found s mid .interrupted rec hmid hlk]
  have hlk3 : lookupMessage (mapMessage s.db mid (fun r =>
      { r with stream_status := StreamStatus.interrupted })) mid =
      some { rec with stream_status := StreamStatus.interrupted } := by
    rw [lookupMessage_mapMessage_self, hlk]
    rfl
  obtain ⟨rec2, hL, hS, hT⟩ := finalizeStream_found inp
    ⟨s.events, s.log,
      mapMessage s.db mid (fun r =>
        { r with stream_status := StreamStatus.interrupted }),
      s.cancel, s.statusTransitions + transitionDelta rec .interrupted⟩
    .interrupted mid { rec with stream_status := StreamStatus.interrupted }
    hid hmid hlk3
  refine ⟨?_, rec2, hL, ?_⟩
  · rw [hT]
    dsimp only
    rw [show transitionDelta
        { rec with stream_status := StreamStatus.interrupted }
        StreamStatus.interrupted = 0 from rfl]
    rw [ite_self]
    omega
  · rw [hS]
    dsimp only
    rw [ite_self]


/-- C1 (amended): excluding the paths where a `CancelledError` escapes
`_process_stream_events` — delivered at the `__anext__` await while the
watcher flag is unset, or delivered at the `publish_event` await, which
the inner `except asyncio.CancelledError` does not wrap — every
termination path of `process_stream` moves an in-progress assistant
message with a truthy id to a terminal `stream_status`, with exactly one
`in_progress -> terminal` transition (on the excluded paths
`CancelledError` is not an `Exception`, so the failure arm never runs and
no status is written). -/
theorem claim_C1_terminal_once_amended (inp : StreamInput) (mid : String)
    (rec : MessageRec)
    (hid : inp.assistant_message_id = some mid)
    (hmid : (mid == "") = false)
    (hlk : lookupMessage inp.db0 mid = some rec)
    (hip : rec.stream_status = .in_progress)
    (hx : ¬(inp.term = .cancelled ∧ inp.monitorFired = false))
    (hx2 : inp.term.atPublish = false) :
    (process_stream inp).1.statusTransitions = 1 ∧
    ∃ rec2, lookupMessage (process_stream inp).1.db mid = some rec2 ∧
      (rec2.stream_status = .completed ∨ rec2.stream_status = .interrupted ∨
        rec2.stream_status = .failed) := by
  unfold process_stream
  dsimp only
  have hsnd := processStreamEvents_snd inp
    { events := [], log := [], db := inp.db0,
      cancel := ⟨false, false, 0⟩, statusTransitions := 0 } rfl
  obtain ⟨hdb, htr, hev⟩ := processStreamEvents_spec inp
    { events := [], log := [], db := inp.db0,
      cancel := ⟨false, false, 0⟩, statusTransitions := 0 } hx2
  obtain ⟨hct, hcf⟩ := processStreamEvents_cancel inp
    { events := [], log := [], db := inp.db0,
      cancel := ⟨false, false, 0⟩, statusTransitions := 0 } rfl
  have hlk1 : lookupMessage (processStreamEvents inp
      { events := [], log := [], db := inp.db0,
        cancel := ⟨false, false, 0⟩, statusTransitions := 0 }).1.db mid =
      some rec := by
    rw [hdb]
    exact hlk
  have hd1 : transitionDelta rec .interrupted = 1 := by
    unfold transitionDelta
    rw [if_pos ⟨hip, by decide⟩]
  have hd2 : transitionDelta rec .failed = 1 := by
    unfold transitionDelta
    rw [if_pos ⟨hip, by decide⟩]
  have hd3 : transitionDelta rec .completed = 1 := by
    unfold transitionDelta
    rw [if_pos ⟨hip, by decide⟩]
  cases ht : inp.term with
  | cancelledAtPublish e =>
    rw [ht] at hx2
    exact absurd hx2 (by simp [ProviderTerm.atPublish])
  | raised m =>
    rw [ht] at hsnd
    dsimp only at hsnd
    rw [hsnd]
    dsimp only
    obtain ⟨h1, h2, h3⟩ := failStream_found inp _ m mid rec hid hmid hlk1
    refine ⟨?_, ?_⟩
    · rw [h2, htr, hd2]
    · refine ⟨_, h3, Or.inr (Or.inr ?_)⟩
      split <;> rfl
  | stop =>
    rw [ht] at hsnd
    dsimp only at hsnd
    rw [hsnd]
    dsimp only
    cases hm : inp.monitorFired with
    | true =>
      have hc := hct hm
      rw [hc]
      rw [if_pos rfl]
      rw [if_neg (by decide)]
      dsimp only
      obtain ⟨hT, rec2, hL, hS⟩ := interrupted_tail_found inp _ mid rec
        hid hmid hlk1
      refine ⟨?_, rec2, hL, Or.inr (Or.inl hS)⟩
      rw [hT, htr, hd1]
    | false =>
      have hc := hcf hm
      rw [hc]
      rw [if_neg (by decide)]
      split
      next hEE =>
        obtain ⟨h1, h2, h3⟩ := failStream_found inp _
          "Stream completed without any events" mid rec hid hmid hlk1
        refine ⟨?_, ?_⟩
        · rw [h2, htr, hd2]
        · refine ⟨_, h3, Or.inr (Or.inr ?_)⟩
          split <;> rfl
      next hEE =>
        dsimp only
        have hE2 : (processStreamEvents inp
            { events := [], log := [], db := inp.db0,
              cancel := ⟨false, false, 0⟩,
              statusTransitions := 0 }).1.events.isEmpty = false := by
          cases hb : (processStreamEvents inp
              { events := [], log := [], db := inp.db0,
                cancel := ⟨false, false, 0⟩,
                statusTransitions := 0 }).1.events.isEmpty with
          | true => exact absurd hb hEE
          | false => rfl
        obtain ⟨rec2, hL, hS, hT⟩ := finalizeStream_found inp _ .completed
          mid rec hid hmid hlk1
        rw [hE2] at hS hT
        simp only [Bool.false_eq_true, if_false] at hS hT
        refine ⟨?_, rec2, hL, Or.inl hS⟩
        rw [hT, htr, hd3]
  | cancelled =>
    cases hm : inp.monitorFired with
    | false => exact absurd ⟨ht, hm⟩ hx
    | true =>
      rw [ht] at hsnd
      dsimp only at hsnd
      rw [hm] at hsnd
      simp only [reduceIte] at hsnd
      rw [hsnd]
      dsimp only
      have hc := hct hm
      rw [hc]
      rw [if_pos rfl]
      rw [if_neg (by decide)]
      dsimp only
      obtain ⟨hT, rec2, hL, hS⟩ := interrupted_tail_found inp _ mid rec
        hid hmid hlk1
      refine ⟨?_, rec2, hL, Or.inr (Or.inl hS)⟩
      rw [hT, htr, hd1]


/-- The C1 counterexample run: one emitted event, then the provider
iterator is killed by `asyncio.CancelledError` with the watcher flag
unset. -/
def cexC1inp : StreamInput :=
  { yielded := [⟨"text_delta", none⟩],
    term := .cancelled,
    monitorFired := false,
    assistant_message_id := some "m1",
    db0 := [("m1", ⟨"", .in_progress, none, none⟩)],
    totalCost := 0,
    hasSandbox := false,
    checkpointResult := none }

/-- C1: the claim fails as stated. On the path where the provider
iterator raises `asyncio.CancelledError` without `was_cancelled` being
set, `_process_stream_events` re-raises it, and `CancelledError` is not
an `Exception`, so the `except Exception` arm of `process_stream` never
runs: the run ends with the assistant message still `in_progress` and no
status transition. -/
theorem claim_C1_terminal_once_counterexample :
    ¬ (∀ (inp : StreamInput) (mid : String) (rec : MessageRec),
        inp.assistant_message_id = some mid → (mid == "") = false →
        lookupMessage inp.db0 mid = some rec →
        rec.stream_status = .in_progress →
        ((process_stream inp).1.statusTransitions = 1 ∧
          ∀ rec2, lookupMessage (process_stream inp).1.db mid = some rec2 →
            rec2.stream_status ≠ .in_progress)) := by
  intro h
  have hx := (h cexC1inp "m1" ⟨"", .in_progress, none, none⟩
    rfl rfl rfl rfl).2 ⟨"", .in_progress, none, none⟩ rfl
  exact hx rfl

/-- The C1 witness run: a normal two-event completion. -/
def wInpC1 : StreamInput :=
  { yielded := [⟨"text_delta", none⟩, ⟨"tool_completed", some ⟨"Bash", none⟩⟩],
    term := .stop,
    monitorFired := false,
    assistant_message_id := some "m1",
    db0 := [("m1", ⟨"", .in_progress, none, none⟩)],
    totalCost := 0,
    hasSandbox := false,
    checkpointResult := none }

/-- Witness for the amended C1 at a concrete completed run. -/
theorem claim_C1_terminal_once_amended_witness :
    (process_stream wInpC1).1.statusTransitions = 1 ∧
    ∃ rec2, lookupMessage (process_stream wInpC1).1.db "m1" = some rec2 ∧
      (rec2.stream_status = .completed ∨ rec2.stream_status = .interrupted ∨
        rec2.stream_status = .failed) :=
  claim_C1_terminal_once_amended wInpC1 "m1" ⟨"", .in_progress, none, none⟩
    rfl rfl rfl rfl (by decide) rfl

/-- C9: over the whole lifetime of one stream — the cancellation watcher
included — the provider's `cancel_active_stream` is invoked at most once,
and whenever it has been invoked the `cancel_requested` latch is set. -/
theorem claim_C9_cancel_at_most_once (inp : StreamInput) :
    (process_stream inp).1.cancel.providerCancelCalls ≤ 1 ∧
    ((process_stream inp).1.cancel.cancel_requested = true ∨
      (process_stream inp).1.cancel.providerCancelCalls = 0) := by
  rcases process_stream_cancel inp with h | h <;> rw [h]
  · exact ⟨by decide, Or.inl rfl⟩
  · exact ⟨by decide, Or.inr rfl⟩


/-- C2: if at least one event was emitted and the stream then fails with a
non-cancellation exception, `process_stream` re-raises it and the
persisted assistant message content is the JSON serialization of exactly
the emitted events, in order, with `stream_status` FAILED. -/
theorem claim_C2_event_preservation (inp : StreamInput) (m mid : String)
    (rec : MessageRec)
    (ht : inp.term = .raised m)
    (hne : inp.yielded.isEmpty = false)
    (hid : inp.assistant_message_id = some mid)
    (hmid : (mid == "") = false)
    (hlk : lookupMessage inp.db0 mid = some rec) :
    (process_stream inp).2 = .raised m ∧
    ∃ rec2, lookupMessage (process_stream inp).1.db mid = some rec2 ∧
      rec2.content = dumpEvents inp.yielded ∧
      rec2.stream_status = .failed := by
  unfold process_stream
  dsimp only
  have hsnd := processStreamEvents_snd inp
    { events := [], log := [], db := inp.db0,
      cancel := ⟨false, false, 0⟩, statusTransitions := 0 } rfl
  obtain ⟨hdb, htr, hev⟩ := processStreamEvents_spec inp
    { events := [], log := [], db := inp.db0,
      cancel := ⟨false, false, 0⟩, statusTransitions := 0 }
    (by rw [ht]; rfl)
  have hlk1 : lookupMessage (processStreamEvents inp
      { events := [], log := [], db := inp.db0,
        cancel := ⟨false, false, 0⟩, statusTransitions := 0 }).1.db mid =
      some rec := by
    rw [hdb]
    exact hlk
  rw [ht] at hsnd
  dsimp only at hsnd
  rw [hsnd]
  dsimp only
  obtain ⟨h1, h2, h3⟩ := failStream_found inp _ m mid rec hid hmid hlk1
  have hEE : (processStreamEvents inp
      { events := [], log := [], db := inp.db0,
        cancel := ⟨false, false, 0⟩, statusTransitions := 0 }).1.events =
      inp.yielded := by
    rw [hev]
    exact List.nil_append inp.yielded
  have hE2 : (processStreamEvents inp
      { events := [], log := [], db := inp.db0,
        cancel := ⟨false, false, 0⟩, statusTransitions := 0 }).1.events.isEmpty =
      false := by
    rw [hEE]
    exact hne
  rw [hE2] at h3
  simp only [Bool.false_eq_true, if_false] at h3
  refine ⟨h1, _, h3, ?_, rfl⟩
  dsimp only
  rw [hEE]


/-- The C2 witness run: one emitted event, then an ordinary exception. -/
def wInpC2 : StreamInput :=
  { yielded := [⟨"text_delta", none⟩],
    term := .raised "boom",
    monitorFired := false,
    assistant_message_id := some "m2",
    db0 := [("m2", ⟨"", .in_progress, none, none⟩)],
    totalCost := 0,
    hasSandbox := false,
    checkpointResult := none }

/-- Witness for C2 at a concrete one-event failing run. -/
theorem claim_C2_event_preservation_witness :
    (process_stream wInpC2).2 = .raised "boom" ∧
    ∃ rec2, lookupMessage (process_stream wInpC2).1.db "m2" = some rec2 ∧
      rec2.content = dumpEvents wInpC2.yielded ∧
      rec2.stream_status = .failed :=
  claim_C2_event_preservation wInpC2 "boom" "m2" ⟨"", .in_progress, none, none⟩
    rfl rfl rfl rfl rfl


lemma legacyCancelStreamSafely_eq (c : CancelState) :
    legacyCancelStreamSafely c = cancelStreamLatched c := by
  unfold legacyCancelStreamSafely cancelStreamLatched
  cases c with
  | mk w r n => cases r <;> rfl

lemma legacyMonitorFire_eq (c : CancelState) :
    legacyMonitorFire c = monitorFire c := by
  unfold legacyMonitorFire monitorFire
  rw [legacyCancelStreamSafely_eq]

lemma legacyProcessStreamEvents_eq (inp : StreamInput) (s0 : OrchState) :
    legacyProcessStreamEvents inp s0 = processStreamEvents inp s0 := by
  unfold legacyProcessStreamEvents processStreamEvents publishAll
  dsimp only
  simp only [legacyMonitorFire_eq, legacyCancelStreamSafely_eq,
    legacyPublishContent, publishEvent]

lemma legacyUpdateMessageStatus_eq (s : OrchState) (mid : Option String)
    (st : StreamStatus) :
    legacyUpdateMessageStatus s (mid.getD "") st =
      updateMessageStatus s mid st := by
  cases mid with
  | none => rfl
  | some m => rfl

lemma legacySaveMessageContent_eq (s : OrchState) (mid : Option String)
    (events : List StreamEvent) (cost : Rat) (st : StreamStatus) :
    legacySaveMessageContent s (mid.getD "") events cost st =
      saveMessageContent s mid events cost st := by
  cases mid with
  | none => rfl
  | some m =>
    unfold legacySaveMessageContent saveMessageContent truthyId
    dsimp only [Option.getD]
    cases hb : m == "" <;> rfl

lemma legacyFinalizeStream_eq (inp : StreamInput) (s : OrchState)
    (st : StreamStatus) :
    legacyFinalizeStream inp s st = finalizeStream inp s st := by
  unfold legacyFinalizeStream finalizeStream
  dsimp only
  simp only [legacySaveMessageContent_eq, legacyPublishComplete,
    publishComplete, legacyCreateCheckpointIfNeeded, createCheckpointIfNeeded]

lemma legacyFailStream_eq (inp : StreamInput) (s : OrchState)
    (msg : String) :
    legacyFailStream inp s msg = failStream inp s msg := by
  unfold legacyFailStream failStream
  dsimp only
  simp only [legacyUpdateMessageStatus_eq, legacySaveMessageContent_eq,
    legacyPublishError, publishError]

/-- C10: the legacy `_drain_ai_stream` of `chat_streaming.py` and the new
`StreamOrchestrator.process_stream` are behaviorally equivalent — on every
input they produce the same events buffer, log, message table,
cancellation state, transition count, and the same outcome or exception
class. -/
theorem claim_C10_drain_equiv (inp : StreamInput) :
    drain_ai_stream inp = process_stream inp := by
  unfold drain_ai_stream process_stream
  dsimp only
  simp only [legacyProcessStreamEvents_eq, legacyFailStream_eq,
    legacyUpdateMessageStatus_eq, legacyFinalizeStream_eq]


end Claudex
